import Mathlib

/-!
Verification of the eval-harness core (statistics layer, reporter aggregation,
resume/merge, artifact cache and task-runner stripping/classification) against
its natural-language specification.  The Python sources under
`eval-harness/lib/` are shallowly embedded: machine floats are idealised as
rationals, transcendental library calls (`math.sqrt`, `math.log`) are passed in
as an explicit function record, and filesystem paths are lists of components.
-/

namespace Harness

/-- Record of the transcendental real functions the Python code takes from
`math`.  `wilson_score_interval` only relies on `sqrt x ≥ 0` for `x ≥ 0`. -/
structure RealFuns where
  sqrt : ℚ → ℚ
  log : ℚ → ℚ

/-- Python `round` to an integer: round-half-to-even (banker's rounding). -/
def roundHalfEven (x : ℚ) : ℤ :=
  if x - ⌊x⌋ < 1/2 then ⌊x⌋
  else if 1/2 < x - ⌊x⌋ then ⌊x⌋ + 1
  else if ⌊x⌋ % 2 = 0 then ⌊x⌋ else ⌊x⌋ + 1

/-- Python `round(x, ndigits)` on our rational idealisation of floats. -/
def pyRound (x : ℚ) (ndigits : ℕ) : ℚ :=
  (roundHalfEven (x * 10 ^ ndigits) : ℚ) / 10 ^ ndigits

theorem roundHalfEven_intCast (n : ℤ) : roundHalfEven (n : ℚ) = n := by
  simp [roundHalfEven]

theorem roundHalfEven_mono {x y : ℚ} (h : x ≤ y) :
    roundHalfEven x ≤ roundHalfEven y := by
  unfold roundHalfEven
  rcases lt_or_eq_of_le (Int.floor_le_floor h) with hf | hf
  · split_ifs <;> omega
  · have hfrac : x - (⌊x⌋ : ℚ) ≤ y - (⌊y⌋ : ℚ) := by
      rw [hf]
      linarith
    rw [hf] at hfrac ⊢
    split_ifs <;> first | omega | linarith

theorem pyRound_mono {x y : ℚ} (n : ℕ) (h : x ≤ y) : pyRound x n ≤ pyRound y n := by
  unfold pyRound
  have hpow : (0:ℚ) < 10 ^ n := by positivity
  have := roundHalfEven_mono (mul_le_mul_of_nonneg_right h (le_of_lt hpow))
  exact div_le_div_of_nonneg_right (by exact_mod_cast this) hpow.le

theorem pyRound_zero (n : ℕ) : pyRound 0 n = 0 := by
  simp [pyRound, roundHalfEven]

theorem pyRound_one (n : ℕ) : pyRound 1 n = 1 := by
  have h : ((1:ℚ) * 10 ^ n) = ((10 ^ n : ℤ) : ℚ) := by push_cast; ring
  rw [pyRound, h, roundHalfEven_intCast]
  have hpow : (0:ℚ) < 10 ^ n := by positivity
  push_cast
  field_simp

/-- Embedding of `lib/stats.py` `_inverse_normal_cdf` (Abramowitz & Stegun
26.2.23, three-region rational approximation).  `none` models the raised
`ValueError` for `p` outside `(0, 1)`; the tail regions go through the
`math.sqrt`/`math.log` oracle `F`. -/
def inverseNormalCdf (F : RealFuns) (p : ℚ) : Option ℚ :=
  if p ≤ 0 ∨ 1 ≤ p then none
  else
    let a1 : ℚ := -39.69683028665376
    let a2 : ℚ := 220.9460984245205
    let a3 : ℚ := -275.9285104469687
    let a4 : ℚ := 138.3577518672690
    let a5 : ℚ := -30.66479806614716
    let a6 : ℚ := 2.506628277459239
    let b1 : ℚ := -54.47609879822406
    let b2 : ℚ := 161.5858368580409
    let b3 : ℚ := -155.6989798598866
    let b4 : ℚ := 66.80131188771972
    let b5 : ℚ := -13.28068155288572
    let c1 : ℚ := -0.007784894002430293
    let c2 : ℚ := -0.3223964580411365
    let c3 : ℚ := -2.400758277161838
    let c4 : ℚ := -2.549732539343734
    let c5 : ℚ := 4.374664141464968
    let c6 : ℚ := 2.938163982698783
    let d1 : ℚ := 0.007784695709041462
    let d2 : ℚ := 0.3224671290700398
    let d3 : ℚ := 2.445134137142996
    let d4 : ℚ := 3.754408661907416
    let pLow : ℚ := 0.02425
    let pHigh : ℚ := 1 - pLow
    if p < pLow then
      let q := F.sqrt (-2 * F.log p)
      some ((((((c1 * q + c2) * q + c3) * q + c4) * q + c5) * q + c6)
        / ((((d1 * q + d2) * q + d3) * q + d4) * q + 1))
    else if p ≤ pHigh then
      let q := p - 0.5
      let r := q * q
      some (((((((a1 * r + a2) * r + a3) * r + a4) * r + a5) * r + a6) * q)
        / (((((b1 * r + b2) * r + b3) * r + b4) * r + b5) * r + 1))
    else
      let q := F.sqrt (-2 * F.log (1 - p))
      some (-((((((c1 * q + c2) * q + c3) * q + c4) * q + c5) * q + c6)
        / ((((d1 * q + d2) * q + d3) * q + d4) * q + 1)))

/-- Embedding of `lib/stats.py` `wilson_score_interval`.  Returns
`(lower, upper, center)`; `none` models the propagated `ValueError` for an
out-of-range confidence level. -/
def wilson_score_interval (F : RealFuns) (successes n : ℕ) (confidence : ℚ) :
    Option (ℚ × ℚ × ℚ) :=
  if n = 0 then some (0, 1, 0)
  else
    match inverseNormalCdf F (1 - (1 - confidence) / 2) with
    | none => none
    | some z =>
      let z2 := z * z
      let p_hat : ℚ := (successes : ℚ) / (n : ℚ)
      let denominator := 1 + z2 / n
      let center := (p_hat + z2 / (2 * n)) / denominator
      let spread := z * F.sqrt (p_hat * (1 - p_hat) / n + z2 / (4 * n * n)) / denominator
      let lower := max 0 (center - spread)
      let upper := min 1 (center + spread)
      some (pyRound lower 4, pyRound upper 4, pyRound center 4)

/-- At the default 90% confidence the `z`-quantile argument is `0.95`, which
falls in the central region of the approximation, so the result is an explicit
rational, independent of the `sqrt`/`log` oracle, and it is nonnegative. -/
theorem inverseNormalCdf_at95 (F : RealFuns) :
    ∃ z : ℚ, inverseNormalCdf F (19/20) = some z ∧ 0 ≤ z := by
  unfold inverseNormalCdf
  norm_num

/-- Embedding of `lib/stats.py` `ci_overlap`. -/
def ci_overlap (a b : ℚ × ℚ) : Bool :=
  decide (a.1 ≤ b.2) && decide (b.1 ≤ a.2)

/-- Result dictionary of `mcnemar_test` (keys `p_value`, `n_discordant`,
`a_wins`, `b_wins`, as read by the reporter and by `tests/test_stats.py`). -/
structure McNemarResult where
  p_value : ℚ
  n_discordant : ℕ
  a_wins : ℕ
  b_wins : ℕ
deriving DecidableEq

/-- Modelled from the spec: `mcnemar_test` is imported from `lib.stats` by
`lib/reporter.py` and exercised by `tests/test_stats.py`, but its definition is
missing from the provided sources.  Following the spec's words: the inputs are
the two discordant-pair counts (ties are excluded by construction), the p-value
is the two-sided exact binomial probability over the `b + c` discordant pairs
(twice the lower binomial tail at the smaller count, capped at 1), and zero
discordant pairs yields `p = 1` by convention. -/
def mcnemar_test (b c : ℕ) : McNemarResult :=
  let n := b + c
  let k := min b c
  let p : ℚ :=
    if n = 0 then 1
    else min 1 (2 * (Finset.range (k + 1)).sum (fun i => (n.choose i : ℚ)) / 2 ^ n)
  ⟨p, n, b, c⟩

/-- The `Condition` enum of `lib/task_runner.py` (values `none | flat_llm |
intent_layer`). -/
inductive Condition
  | NONE
  | FLAT_LLM
  | INTENT_LAYER
deriving DecidableEq

/-- `SkillGenerationMetrics` record of `lib/task_runner.py`. -/
structure SkillGenerationMetrics where
  wall_clock_seconds : ℚ
  input_tokens : ℕ
  output_tokens : ℕ
  cache_hit : Bool := false
  files_created : List String := []
deriving DecidableEq

/-- `TaskResult` record of `lib/task_runner.py` (one trial's outcome). -/
structure TaskResult where
  task_id : String
  condition : Condition
  success : Bool
  test_output : String
  wall_clock_seconds : ℚ
  input_tokens : ℕ
  output_tokens : ℕ
  tool_calls : ℕ
  lines_changed : ℕ
  files_touched : List String
  skill_generation : Option SkillGenerationMetrics := Option.none
  agents_files_read : Option (List String) := Option.none
  error : Option String := Option.none
  exit_code : Option ℤ := Option.none
  is_timeout : Bool := false
deriving DecidableEq

/-- Python `str.startswith`, via the character lists of the two strings. -/
def strStarts (s p : String) : Bool := p.data.isPrefixOf s.data

/-- `Reporter.INFRA_ERROR_PREFIXES` from `lib/reporter.py`: error-tag markers
that classify a result as a harness (apparatus) failure. -/
def infraErrorMarkers : List String :=
  ["[infrastructure]", "[pre-validation]", "[skill-generation]",
   "[empty-run]", "[worker-crash]"]

/-- `Reporter._is_infra_error`: an error message starting with any of the
apparatus markers. -/
def isInfraError (r : TaskResult) : Bool :=
  match r.error with
  | Option.none => false
  | Option.some e => infraErrorMarkers.any (fun p => strStarts e p)

/-- The `valid_runs` filter used throughout `lib/reporter.py`: results that are
not apparatus failures. -/
def validRuns (l : List TaskResult) : List TaskResult :=
  l.filter (fun r => !isInfraError r)

/-- `success_rate` inside `Reporter._compute_summary` (per-protocol rate:
apparatus failures excluded from the denominator). -/
def successRate (l : List TaskResult) : ℚ :=
  let valid := validRuns l
  if valid.length = 0 then 0
  else pyRound ((valid.countP (fun r => r.success) : ℚ) / (valid.length : ℚ)) 2

/-- `itt_rate` inside `Reporter._compute_summary` (intent-to-treat: every
result counts, non-success is failure). -/
def ittRate (l : List TaskResult) : ℚ :=
  if l.length = 0 then 0
  else pyRound ((l.countP (fun r => r.success) : ℚ) / (l.length : ℚ)) 2

/-- Python `statistics.median` on our rational idealisation: sort, take the
middle element (odd length) or the mean of the two middle elements (even). -/
def medianQ (l : List ℚ) : ℚ :=
  let s := List.insertionSort (· ≤ ·) l
  if l.length % 2 = 1 then s.getD (l.length / 2) 0
  else (s.getD (l.length / 2 - 1) 0 + s.getD (l.length / 2) 0) / 2

/-- `median_tokens` inside `Reporter._compute_summary`: truncated median of
input+output tokens over valid runs (the inputs are naturals, so Python's
`int` truncation is the floor). -/
def medianTokens (l : List TaskResult) : ℤ :=
  let valid := validRuns l
  if valid.length = 0 then 0
  else ⌊medianQ (valid.map (fun r => ((r.input_tokens + r.output_tokens : ℕ) : ℚ)))⌋

/-- Helper for `firstOccurrences`: keep elements not seen before. -/
def firstOccAux (seen : List String) : List String → List String
  | [] => []
  | x :: xs => if x ∈ seen then firstOccAux seen xs else x :: firstOccAux (x :: seen) xs

/-- First-occurrence order of task ids, as produced by grouping into a Python
dict in arrival order. -/
def firstOccurrences (l : List String) : List String := firstOccAux [] l

/-- The per-(task, condition) run list of the reporter's grouping: results for
one task and condition, in arrival order. -/
def condRuns (results : List TaskResult) (tid : String) (c : Condition) :
    List TaskResult :=
  results.filter (fun r => decide (r.task_id = tid ∧ r.condition = c))

/-- All results of one condition, in arrival order. -/
def condResults (results : List TaskResult) (c : Condition) : List TaskResult :=
  results.filter (fun r => decide (r.condition = c))

/-- The discordant-pair counts of `Reporter._compute_mcnemar` for one ordered
pair of conditions: pair runs positionally per task, drop pairs containing an
apparatus failure, count (a passed, b failed) and (a failed, b passed). -/
def discordant (results : List TaskResult) (ca cb : Condition) : ℕ × ℕ :=
  (firstOccurrences (results.map (fun r => r.task_id))).foldl
    (fun acc tid =>
      let pairs := (List.zip (condRuns results tid ca) (condRuns results tid cb)).filter
        (fun p => !isInfraError p.1 && !isInfraError p.2)
      (acc.1 + pairs.countP (fun p => p.1.success && !p.2.success),
       acc.2 + pairs.countP (fun p => !p.1.success && p.2.success)))
    (0, 0)

/-- One row of `Reporter._compute_mcnemar`. -/
def mcnemarFor (results : List TaskResult) (ca cb : Condition) : McNemarResult :=
  let d := discordant results ca cb
  mcnemar_test d.1 d.2

/-- `Reporter._compute_mcnemar`: the three pairwise comparisons. -/
def computeMcnemar (results : List TaskResult) : List (String × McNemarResult) :=
  [("flat_llm_vs_none", mcnemarFor results Condition.FLAT_LLM Condition.NONE),
   ("intent_layer_vs_none", mcnemarFor results Condition.INTENT_LAYER Condition.NONE),
   ("intent_layer_vs_flat_llm",
     mcnemarFor results Condition.INTENT_LAYER Condition.FLAT_LLM)]

/-- `has_multi_run` inside `Reporter._compute_summary`: some (task, condition)
pair occurs more than once. -/
def hasMultiRun (results : List TaskResult) : Bool :=
  results.any (fun r =>
    1 < results.countP (fun r2 =>
      decide (r2.task_id = r.task_id ∧ r2.condition = r.condition)))

/-- The per-condition 90% Wilson CI added to the summary when multi-run data is
present and the condition has valid runs (`lower`/`upper` rounded to 3). -/
def condCI (F : RealFuns) (condList : List TaskResult) (hm : Bool) :
    Option (ℚ × ℚ) :=
  if hm then
    let valid := validRuns condList
    if valid.length = 0 then Option.none
    else
      match wilson_score_interval F (valid.countP (fun r => r.success))
          valid.length (9/10) with
      | Option.some (lo, hi, _) => Option.some (pyRound lo 3, pyRound hi 3)
      | Option.none => Option.none
  else Option.none

/-- Significance flag: present when both CIs are, true iff they do not
overlap. -/
def sigFlag (nc tc : Option (ℚ × ℚ)) : Option Bool :=
  match nc, tc with
  | Option.some a, Option.some b => Option.some (!ci_overlap a b)
  | _, _ => Option.none

/-- The summary dictionary of `Reporter._compute_summary`, minus its `mcnemar`
entry (kept separate so order-(in)dependence can be stated per part). -/
structure SummaryCore where
  total_tasks : ℕ
  infrastructure_errors : ℕ
  none_success_rate : ℚ
  flat_llm_success_rate : ℚ
  intent_layer_success_rate : ℚ
  none_itt_rate : ℚ
  flat_llm_itt_rate : ℚ
  intent_layer_itt_rate : ℚ
  none_median_tokens : ℤ
  flat_llm_median_tokens : ℤ
  intent_layer_median_tokens : ℤ
  none_ci_90 : Option (ℚ × ℚ)
  flat_llm_ci_90 : Option (ℚ × ℚ)
  intent_layer_ci_90 : Option (ℚ × ℚ)
  flat_llm_vs_none_significant : Option Bool
  intent_layer_vs_none_significant : Option Bool
deriving DecidableEq

/-- `Reporter._compute_summary`, split into the core and the `mcnemar` entry. -/
structure Summary where
  core : SummaryCore
  mcnemar : List (String × McNemarResult)
deriving DecidableEq

/-- The core part of `Reporter._compute_summary`. -/
def computeSummaryCore (F : RealFuns) (results : List TaskResult) : SummaryCore :=
  let noneR := condResults results Condition.NONE
  let flatR := condResults results Condition.FLAT_LLM
  let ilR := condResults results Condition.INTENT_LAYER
  let hm := hasMultiRun results
  let nCI := condCI F noneR hm
  let fCI := condCI F flatR hm
  let iCI := condCI F ilR hm
  { total_tasks := (firstOccurrences (results.map (fun r => r.task_id))).length
    infrastructure_errors := results.countP (fun r => isInfraError r)
    none_success_rate := successRate noneR
    flat_llm_success_rate := successRate flatR
    intent_layer_success_rate := successRate ilR
    none_itt_rate := ittRate noneR
    flat_llm_itt_rate := ittRate flatR
    intent_layer_itt_rate := ittRate ilR
    none_median_tokens := medianTokens noneR
    flat_llm_median_tokens := medianTokens flatR
    intent_layer_median_tokens := medianTokens ilR
    none_ci_90 := nCI
    flat_llm_ci_90 := fCI
    intent_layer_ci_90 := iCI
    flat_llm_vs_none_significant := sigFlag nCI fCI
    intent_layer_vs_none_significant := sigFlag nCI iCI }

/-- `Reporter._compute_summary`: the full summary attached by
`Reporter.compile_results` to its output. -/
def computeSummary (F : RealFuns) (results : List TaskResult) : Summary :=
  ⟨computeSummaryCore F results, computeMcnemar results⟩

/-- Python `int()` on our rational idealisation: truncation toward zero. -/
def truncQ (x : ℚ) : ℤ :=
  if 0 ≤ x then ⌊x⌋ else -⌊-x⌋

/-- The `pct` helper inside `Reporter._compute_delta`: relative change in
percent, `0` when the baseline value is falsy (zero). -/
def pctChange (b t : ℚ) : ℚ :=
  if b ≠ 0 then (t - b) / b * 100 else 0

/-- Python `f"{x:+.1f}"` idealised over rationals: explicit sign and one
decimal digit, rounded half-even (the sign of a negative zero is not
modelled). -/
def fmtSigned1 (x : ℚ) : String :=
  let r := roundHalfEven (x * 10)
  (if r < 0 then "-" else "+") ++ toString (r.natAbs / 10) ++ "." ++
    toString (r.natAbs % 10)

/-- Python `f"{x:+.0%}"` idealised over rationals: percent presentation with
explicit sign and no decimals, rounded half-even. -/
def fmtSignedPercent0 (x : ℚ) : String :=
  let r := roundHalfEven (x * 100)
  (if r < 0 then "-" else "+") ++ toString r.natAbs ++ "%"

/-- The delta dictionary built by `Reporter._compute_delta`. -/
structure DeltaDict where
  success_rate_delta : String
  time_percent : String
  tokens_percent : String
  tool_calls_percent : String
  lines_changed_percent : String
deriving DecidableEq

/-- `Reporter._compute_delta`: the per-task delta between a baseline and a
treatment group — success-rate delta and median efficiency changes over valid
runs.  `none` models the empty dict returned when either group (or its valid
subset) is empty. -/
def computeDelta (baseline_runs treatment_runs : List TaskResult) :
    Option DeltaDict :=
  if baseline_runs = [] ∨ treatment_runs = [] then Option.none
  else
    let b_valid := validRuns baseline_runs
    let t_valid := validRuns treatment_runs
    if b_valid = [] ∨ t_valid = [] then Option.none
    else
      let b_rate : ℚ := (b_valid.countP (fun r => r.success) : ℚ) / b_valid.length
      let t_rate : ℚ := (t_valid.countP (fun r => r.success) : ℚ) / t_valid.length
      let rate_delta := t_rate - b_rate
      let b_time := medianQ (b_valid.map (fun r => r.wall_clock_seconds))
      let t_time := medianQ (t_valid.map (fun r => r.wall_clock_seconds))
      let b_tokens := medianQ (b_valid.map
        (fun r => ((r.input_tokens + r.output_tokens : ℕ) : ℚ)))
      let t_tokens := medianQ (t_valid.map
        (fun r => ((r.input_tokens + r.output_tokens : ℕ) : ℚ)))
      let b_tools := medianQ (b_valid.map (fun r => (r.tool_calls : ℚ)))
      let t_tools := medianQ (t_valid.map (fun r => (r.tool_calls : ℚ)))
      let b_lines := medianQ (b_valid.map (fun r => (r.lines_changed : ℚ)))
      let t_lines := medianQ (t_valid.map (fun r => (r.lines_changed : ℚ)))
      Option.some
        { success_rate_delta :=
            if 1 < b_valid.length then fmtSignedPercent0 rate_delta
            else if 0 ≤ rate_delta then "+" ++ toString (truncQ (t_rate - b_rate))
            else toString (truncQ (t_rate - b_rate)),
          time_percent := fmtSigned1 (pctChange b_time t_time) ++ "%",
          tokens_percent := fmtSigned1 (pctChange b_tokens t_tokens) ++ "%",
          tool_calls_percent := fmtSigned1 (pctChange b_tools t_tools) ++ "%",
          lines_changed_percent := fmtSigned1 (pctChange b_lines t_lines) ++ "%" }

/-- Result record of the agent-process collaborator (`run_claude`). -/
structure ClaudeResult where
  wall_clock_seconds : ℚ
  input_tokens : ℕ
  output_tokens : ℕ
  tool_calls : ℕ
  timed_out : Bool
  exit_code : Option ℤ
  stdout : String
  stderr : String
deriving DecidableEq

/-- Result record of the sandboxed command runner (`run_in_docker`). -/
structure DockerResult where
  exit_code : ℤ
  stdout : String
  stderr : String
  timed_out : Bool
deriving DecidableEq

/-- Result of the version-control helper `get_diff_stats`. -/
structure DiffStats where
  lines_changed : ℕ
  files : List String
deriving DecidableEq

/-- The typed exceptions that `TaskRunner.run` catches: `PreValidationError`,
`SkillGenerationError`, and the generic `Exception` catch-all. -/
inductive RunError
  | preValidation (msg : String)
  | skillGeneration (msg : String)
  | other (msg : String)
deriving DecidableEq

/-- The error tag each `except` clause of `TaskRunner.run` attaches. -/
def tagOf : RunError → String
  | RunError.preValidation msg => "[pre-validation] " ++ msg
  | RunError.skillGeneration msg => "[skill-generation] " ++ msg
  | RunError.other msg => "[infrastructure] " ++ msg

/-- Behaviour of the external collaborators during one trial, abstracting the
subprocess effects of `TaskRunner.run`: each fallible step either yields its
value or raises. -/
structure RunEnv where
  cloneCheckout : Except RunError Unit
  preValidate : Except RunError (Option String)
  skillGen : Except RunError SkillGenerationMetrics
  flatGen : Except RunError SkillGenerationMetrics
  baseline : Except RunError Unit
  claude : ClaudeResult
  test : Except RunError DockerResult
  diff : Except RunError DiffStats
  agentsFilesRead : List String

/-- The all-zero failed `TaskResult` each `except` clause of `TaskRunner.run`
constructs, with the tagged message. -/
def failedResult (task_id : String) (c : Condition) (msg : String) : TaskResult :=
  { task_id := task_id, condition := c, success := false, test_output := "",
    wall_clock_seconds := 0, input_tokens := 0, output_tokens := 0, tool_calls := 0,
    lines_changed := 0, files_touched := [], error := Option.some msg }

/-- The `ContextReady` step of `TaskRunner.run`: no-op for `none`; for the two
context conditions the generated metrics, with a raised
`SkillGenerationError` when generation was not a cache hit and produced no
files. -/
def contextStep (env : RunEnv) (cond : Condition) :
    Except RunError (Option SkillGenerationMetrics) :=
  match cond with
  | Condition.NONE => Except.ok Option.none
  | Condition.INTENT_LAYER =>
    match env.skillGen with
    | Except.error e => Except.error e
    | Except.ok m =>
      if m.cache_hit = false ∧ m.files_created = [] then
        Except.error (RunError.skillGeneration "Intent Layer generation produced no files")
      else Except.ok (Option.some m)
  | Condition.FLAT_LLM =>
    match env.flatGen with
    | Except.error e => Except.error e
    | Except.ok m =>
      if m.cache_hit = false ∧ m.files_created = [] then
        Except.error (RunError.skillGeneration "Flat CLAUDE.md generation produced no files")
      else Except.ok (Option.some m)

/-- The body of `TaskRunner.run` before its `except` clauses.  The dynamic
suffixes of the `[empty-run]`/`[timeout]` messages (exit code, seconds, prompt
bytes) are elided; only the tag prefix is consumed downstream. -/
def runTrialBody (env : RunEnv) (task_id : String) (condition : Condition) :
    Except RunError TaskResult :=
  match env.cloneCheckout with
  | Except.error e => Except.error e
  | Except.ok _ =>
  match env.preValidate with
  | Except.error e => Except.error e
  | Except.ok _ =>
  match contextStep env condition with
  | Except.error e => Except.error e
  | Except.ok skill_metrics =>
  match env.baseline with
  | Except.error e => Except.error e
  | Except.ok _ =>
    let c := env.claude
    if c.tool_calls = 0 ∧ c.input_tokens = 0 ∧ c.output_tokens = 0 ∧
        c.timed_out = false then
      Except.ok { task_id := task_id, condition := condition, success := false,
                  test_output := "", wall_clock_seconds := c.wall_clock_seconds,
                  input_tokens := 0, output_tokens := 0, tool_calls := 0,
                  lines_changed := 0, files_touched := [],
                  error := Option.some "[empty-run] Claude produced no output",
                  exit_code := c.exit_code }
    else if c.timed_out then
      Except.ok { task_id := task_id, condition := condition, success := false,
                  test_output := "", wall_clock_seconds := c.wall_clock_seconds,
                  input_tokens := c.input_tokens, output_tokens := c.output_tokens,
                  tool_calls := c.tool_calls, lines_changed := 0, files_touched := [],
                  error := Option.some "[timeout] Claude timed out",
                  exit_code := c.exit_code, is_timeout := true }
    else
      match env.test with
      | Except.error e => Except.error e
      | Except.ok t =>
      match env.diff with
      | Except.error e => Except.error e
      | Except.ok d =>
        Except.ok { task_id := task_id, condition := condition,
                    success := decide (t.exit_code = 0),
                    test_output := t.stdout ++ t.stderr,
                    wall_clock_seconds := c.wall_clock_seconds,
                    input_tokens := c.input_tokens, output_tokens := c.output_tokens,
                    tool_calls := c.tool_calls, lines_changed := d.lines_changed,
                    files_touched := d.files, skill_generation := skill_metrics,
                    agents_files_read :=
                      (if condition = Condition.NONE then Option.none
                       else Option.some env.agentsFilesRead),
                    exit_code := c.exit_code }

/-- `TaskRunner.run`: the body with the three `except` clauses turning raised
errors into tagged failed results. -/
def runTrial (env : RunEnv) (task_id : String) (condition : Condition) : TaskResult :=
  match runTrialBody env task_id condition with
  | Except.ok r => r
  | Except.error e => failedResult task_id condition (tagOf e)

/-- The `ContextReady` step succeeds: generation either hit the cache or
produced files. -/
def contextOk (env : RunEnv) (cond : Condition) : Prop :=
  match cond with
  | Condition.NONE => True
  | Condition.INTENT_LAYER =>
    ∃ m, env.skillGen = Except.ok m ∧ (m.cache_hit = true ∨ m.files_created ≠ [])
  | Condition.FLAT_LLM =>
    ∃ m, env.flatGen = Except.ok m ∧ (m.cache_hit = true ∨ m.files_created ≠ [])

theorem contextStep_ok {env : RunEnv} {cond : Condition} (h : contextOk env cond) :
    ∃ sm, contextStep env cond = Except.ok sm := by
  cases cond with
  | NONE => exact ⟨Option.none, rfl⟩
  | INTENT_LAYER =>
    obtain ⟨m, hm, hok⟩ := h
    refine ⟨Option.some m, ?_⟩
    rw [contextStep, hm]
    rcases hok with hok | hok <;> simp [hok]
  | FLAT_LLM =>
    obtain ⟨m, hm, hok⟩ := h
    refine ⟨Option.some m, ?_⟩
    rw [contextStep, hm]
    rcases hok with hok | hok <;> simp [hok]

theorem any_perm {α : Type} {l₁ l₂ : List α} (h : l₁.Perm l₂) (p : α → Bool) :
    l₁.any p = l₂.any p := by
  rw [Bool.eq_iff_iff, List.any_eq_true, List.any_eq_true]
  constructor
  · rintro ⟨x, hx, hp⟩
    exact ⟨x, h.mem_iff.mp hx, hp⟩
  · rintro ⟨x, hx, hp⟩
    exact ⟨x, h.mem_iff.mpr hx, hp⟩

theorem mem_firstOccAux {x : String} :
    ∀ (seen l : List String), x ∈ firstOccAux seen l ↔ x ∈ l ∧ x ∉ seen := by
  intro seen l
  induction l generalizing seen with
  | nil => simp [firstOccAux]
  | cons y ys ih =>
    rw [firstOccAux]
    by_cases hy : y ∈ seen
    · rw [if_pos hy, ih]
      simp only [List.mem_cons]
      constructor
      · rintro ⟨h1, h2⟩
        exact ⟨Or.inr h1, h2⟩
      · rintro ⟨h1 | h1, h2⟩
        · exact absurd hy (h1 ▸ h2)
        · exact ⟨h1, h2⟩
    · rw [if_neg hy]
      simp only [List.mem_cons, ih (y :: seen), List.mem_cons]
      constructor
      · rintro (rfl | ⟨h1, h2⟩)
        · exact ⟨Or.inl rfl, hy⟩
        · exact ⟨Or.inr h1, fun hx => h2 (Or.inr hx)⟩
      · rintro ⟨rfl | h1, h2⟩
        · exact Or.inl rfl
        · by_cases hxy : x = y
          · exact Or.inl hxy
          · exact Or.inr ⟨h1, fun hx => (hx.elim hxy h2)⟩

theorem nodup_firstOccAux : ∀ (seen l : List String), (firstOccAux seen l).Nodup := by
  intro seen l
  induction l generalizing seen with
  | nil => simp [firstOccAux]
  | cons y ys ih =>
    rw [firstOccAux]
    by_cases hy : y ∈ seen
    · rw [if_pos hy]
      exact ih seen
    · rw [if_neg hy]
      refine List.Nodup.cons ?_ (ih (y :: seen))
      intro hmem
      exact ((mem_firstOccAux (y :: seen) ys).mp hmem).2 (List.mem_cons_self y seen)

theorem length_firstOccurrences_perm {l₁ l₂ : List String} (h : l₁.Perm l₂) :
    (firstOccurrences l₁).length = (firstOccurrences l₂).length := by
  have key : ∀ l : List String, (firstOccurrences l).length = l.toFinset.card := by
    intro l
    have hto : (firstOccurrences l).toFinset = l.toFinset := by
      apply Finset.ext
      intro a
      simp only [List.mem_toFinset, firstOccurrences, mem_firstOccAux]
      simp
    rw [← hto,
      List.toFinset_card_of_nodup
        (show (firstOccurrences l).Nodup from nodup_firstOccAux [] l)]
  rw [key, key, List.toFinset_eq_of_perm _ _ h]

theorem successRate_perm {l₁ l₂ : List TaskResult} (h : l₁.Perm l₂) :
    successRate l₁ = successRate l₂ := by
  have hv := h.filter (fun r => !isInfraError r)
  simp only [successRate, validRuns]
  rw [hv.length_eq, hv.countP_eq]

theorem ittRate_perm {l₁ l₂ : List TaskResult} (h : l₁.Perm l₂) :
    ittRate l₁ = ittRate l₂ := by
  simp only [ittRate]
  rw [h.length_eq, h.countP_eq]

theorem medianQ_perm {l₁ l₂ : List ℚ} (h : l₁.Perm l₂) : medianQ l₁ = medianQ l₂ := by
  have hs : List.insertionSort (· ≤ ·) l₁ = List.insertionSort (· ≤ ·) l₂ :=
    List.eq_of_perm_of_sorted
      ((List.perm_insertionSort _ l₁).trans (h.trans (List.perm_insertionSort _ l₂).symm))
      (List.sorted_insertionSort _ l₁) (List.sorted_insertionSort _ l₂)
  simp only [medianQ]
  rw [hs, h.length_eq]

theorem medianTokens_perm {l₁ l₂ : List TaskResult} (h : l₁.Perm l₂) :
    medianTokens l₁ = medianTokens l₂ := by
  have hv := h.filter (fun r => !isInfraError r)
  simp only [medianTokens, validRuns]
  rw [hv.length_eq,
    medianQ_perm (hv.map (fun r => ((r.input_tokens + r.output_tokens : ℕ) : ℚ)))]

theorem hasMultiRun_perm {l₁ l₂ : List TaskResult} (h : l₁.Perm l₂) :
    hasMultiRun l₁ = hasMultiRun l₂ := by
  simp only [hasMultiRun]
  have hfun : (fun r : TaskResult => decide (1 < l₁.countP (fun r2 =>
        decide (r2.task_id = r.task_id ∧ r2.condition = r.condition)))) =
      (fun r : TaskResult => decide (1 < l₂.countP (fun r2 =>
        decide (r2.task_id = r.task_id ∧ r2.condition = r.condition)))) := by
    funext r
    rw [h.countP_eq]
  rw [hfun, any_perm h]

theorem condCI_perm (F : RealFuns) {l₁ l₂ : List TaskResult} (h : l₁.Perm l₂)
    (hm : Bool) : condCI F l₁ hm = condCI F l₂ hm := by
  have hv := h.filter (fun r => !isInfraError r)
  simp only [condCI, validRuns]
  rw [hv.length_eq, hv.countP_eq]

theorem computeDelta_perm {b₁ b₂ t₁ t₂ : List TaskResult} (hb : b₁.Perm b₂)
    (ht : t₁.Perm t₂) : computeDelta b₁ t₁ = computeDelta b₂ t₂ := by
  have hvb : (validRuns b₁).Perm (validRuns b₂) := hb.filter (fun r => !isInfraError r)
  have hvt : (validRuns t₁).Perm (validRuns t₂) := ht.filter (fun r => !isInfraError r)
  have hb0 : (b₁ = [] ∨ t₁ = []) ↔ (b₂ = [] ∨ t₂ = []) := by
    constructor
    · rintro (rfl | rfl)
      · exact Or.inl hb.symm.eq_nil
      · exact Or.inr ht.symm.eq_nil
    · rintro (rfl | rfl)
      · exact Or.inl hb.eq_nil
      · exact Or.inr ht.eq_nil
  have hv0 : (validRuns b₁ = [] ∨ validRuns t₁ = []) ↔
      (validRuns b₂ = [] ∨ validRuns t₂ = []) := by
    constructor
    · rintro (h1 | h1)
      · exact Or.inl (h1 ▸ hvb).symm.eq_nil
      · exact Or.inr (h1 ▸ hvt).symm.eq_nil
    · rintro (h1 | h1)
      · exact Or.inl (h1 ▸ hvb).eq_nil
      · exact Or.inr (h1 ▸ hvt).eq_nil
  simp only [computeDelta]
  by_cases h1 : b₁ = [] ∨ t₁ = []
  · rw [if_pos h1, if_pos (hb0.mp h1)]
  · rw [if_neg h1, if_neg (fun h2 => h1 (hb0.mpr h2))]
    by_cases h2 : validRuns b₁ = [] ∨ validRuns t₁ = []
    · rw [if_pos h2, if_pos (hv0.mp h2)]
    · rw [if_neg h2, if_neg (fun h3 => h2 (hv0.mpr h3))]
      rw [hvb.countP_eq, hvb.length_eq, hvt.countP_eq, hvt.length_eq,
        medianQ_perm (hvb.map (fun r => r.wall_clock_seconds)),
        medianQ_perm (hvt.map (fun r => r.wall_clock_seconds)),
        medianQ_perm (hvb.map (fun r => ((r.input_tokens + r.output_tokens : ℕ) : ℚ))),
        medianQ_perm (hvt.map (fun r => ((r.input_tokens + r.output_tokens : ℕ) : ℚ))),
        medianQ_perm (hvb.map (fun r => (r.tool_calls : ℚ))),
        medianQ_perm (hvt.map (fun r => (r.tool_calls : ℚ))),
        medianQ_perm (hvb.map (fun r => (r.lines_changed : ℚ))),
        medianQ_perm (hvt.map (fun r => (r.lines_changed : ℚ)))]

/-! Resume/merge layer: embedding of `lib/cli.py` (`_load_prior_results`,
`_merge_results`, `_recompute_summary`).  Serialized per-condition result
blocks keep exactly the fields `cli.py` consults — `success`, the optional
`error` key, and the multi-run aggregates — plus an opaque remainder standing
for the fields the merge copies verbatim. -/

/-- Multi-run aggregates of a serialized condition block (present when the
block has a `runs` array). -/
structure MultiInfo where
  runsLen : ℕ
  successes : ℕ
  total_valid_runs : ℕ
deriving DecidableEq

/-- A serialized per-condition block as read back from a results document.
`error = none` means the `error` key is absent; `multi = none` means no
`runs` array.  `otherFields` stands for the serialized metrics the merge
never inspects. -/
structure CondBlock where
  success : Bool
  error : Option String := Option.none
  multi : Option MultiInfo := Option.none
  otherFields : List (String × String) := []
deriving DecidableEq

/-- A task's `deltas` value: the note written for mixed resumes, or an opaque
delta table. -/
inductive DeltasVal
  | note (msg : String)
  | table (entries : List (String × String))
deriving DecidableEq

/-- A serialized per-task record: up to three per-condition blocks plus the
`deltas` entry (`none` = key absent). -/
structure TaskRecord where
  task_id : String
  noneB : Option CondBlock := Option.none
  flatB : Option CondBlock := Option.none
  ilB : Option CondBlock := Option.none
  deltas : Option DeltasVal := Option.none
deriving DecidableEq

/-- Access a record's block for one condition key. -/
def TaskRecord.get : TaskRecord → Condition → Option CondBlock
  | t, Condition.NONE => t.noneB
  | t, Condition.FLAT_LLM => t.flatB
  | t, Condition.INTENT_LAYER => t.ilB

/-- The iteration order of condition keys in `cli.py`. -/
def condKeys : List Condition :=
  [Condition.NONE, Condition.FLAT_LLM, Condition.INTENT_LAYER]

/-- `_is_infra_error_dict` from `lib/cli.py`. -/
def isInfraErrorBlock (b : CondBlock) : Bool :=
  match b.error with
  | Option.none => false
  | Option.some e => infraErrorMarkers.any (fun p => strStarts e p)

/-- The passed (task, condition) pairs identified by `_load_prior_results`:
`success` is `True` and no `error` key exists at the condition level. -/
def passedPairs (prior : List TaskRecord) : List (String × Condition) :=
  prior.flatMap (fun t =>
    condKeys.filterMap (fun c =>
      match t.get c with
      | Option.none => Option.none
      | Option.some b =>
        if b.success = true ∧ b.error = Option.none then Option.some (t.task_id, c)
        else Option.none))

/-- Python `{r["task_id"]: r for r in l}[tid]`: the last record with the given
id, if any. -/
def dictLast (l : List TaskRecord) (tid : String) : Option TaskRecord :=
  (l.filter (fun r => decide (r.task_id = tid))).getLast?

/-- The `task_order` built by `_merge_results`: prior order first (duplicates
included), then new-only task ids by first occurrence. -/
def taskOrder (prior new : List TaskRecord) : List String :=
  let priorIds := prior.map (fun r => r.task_id)
  priorIds ++ firstOccAux priorIds (new.map (fun r => r.task_id))

/-- The merged record `_merge_results` builds for a task present in the prior
data: per condition, carry the prior block when the pair passed, else take the
new block when present, else keep the prior block; deltas are the mixed note
when both carried and new blocks occur, else the new record's deltas when it
has them, else the prior's (defaulting to an empty table). -/
def buildMerged (tid : String) (pt : TaskRecord) (newT : Option TaskRecord)
    (passed : List (String × Condition)) : TaskRecord :=
  let isPassed := fun (c : Condition) => passed.any (fun p => decide (p.1 = tid ∧ p.2 = c))
  let pick := fun (c : Condition) =>
    if isPassed c then pt.get c
    else
      match newT with
      | Option.some nt =>
        match nt.get c with
        | Option.some b => Option.some b
        | Option.none => pt.get c
      | Option.none => pt.get c
  let has_carried := condKeys.any (fun c => isPassed c)
  let has_new := condKeys.any (fun c => !isPassed c &&
    (match newT with
     | Option.some nt => (nt.get c).isSome
     | Option.none => false))
  { task_id := tid,
    noneB := pick Condition.NONE,
    flatB := pick Condition.FLAT_LLM,
    ilB := pick Condition.INTENT_LAYER,
    deltas :=
      if has_carried && has_new then
        Option.some (DeltasVal.note "mixed resume — deltas not recomputed")
      else
        match newT with
        | Option.some nt =>
          match nt.deltas with
          | Option.some d => Option.some d
          | Option.none => Option.some (pt.deltas.getD (DeltasVal.table []))
        | Option.none => Option.some (pt.deltas.getD (DeltasVal.table [])) }

/-- One entry of the merge loop: new-only tasks pass through; prior tasks not
re-run and without passed pairs are skipped; otherwise the merged record. -/
def mergeTask (tid : String) (priorT newT : Option TaskRecord)
    (passed : List (String × Condition)) : Option TaskRecord :=
  match priorT with
  | Option.none => newT
  | Option.some pt =>
    if newT = Option.none ∧ ¬ passed.any (fun p => decide (p.1 = tid)) then Option.none
    else Option.some (buildMerged tid pt newT passed)

/-- Per-condition accumulator of `_recompute_summary`. -/
structure CondStats where
  successes : ℕ
  total : ℕ
  assigned : ℕ
deriving DecidableEq

/-- The whole accumulator state of `_recompute_summary`. -/
structure RecomputeState where
  none_s : CondStats
  flat_s : CondStats
  il_s : CondStats
  infra : ℤ
  hm : Bool
deriving DecidableEq

/-- Apply an update to one condition's accumulator. -/
def updateStats (st : RecomputeState) (c : Condition) (f : CondStats → CondStats) :
    RecomputeState :=
  match c with
  | Condition.NONE => { st with none_s := f st.none_s }
  | Condition.FLAT_LLM => { st with flat_s := f st.flat_s }
  | Condition.INTENT_LAYER => { st with il_s := f st.il_s }

/-- Fold one condition block into the `_recompute_summary` state. -/
def stepBlock (st : RecomputeState) (c : Condition) (b : Option CondBlock) :
    RecomputeState :=
  match b with
  | Option.none => st
  | Option.some cb =>
    match cb.multi with
    | Option.some mi =>
      { updateStats st c (fun s =>
          { successes := s.successes + mi.successes,
            total := s.total + mi.total_valid_runs,
            assigned := s.assigned + mi.runsLen }) with
        infra := st.infra + ((mi.runsLen : ℤ) - (mi.total_valid_runs : ℤ)),
        hm := true }
    | Option.none =>
      if isInfraErrorBlock cb then
        { updateStats st c (fun s => { s with assigned := s.assigned + 1 }) with
          infra := st.infra + 1 }
      else
        updateStats st c (fun s =>
          { successes := s.successes + (if cb.success then 1 else 0),
            total := s.total + 1, assigned := s.assigned + 1 })

/-- Fold all merged records into the `_recompute_summary` state. -/
def recomputeState (merged : List TaskRecord) : RecomputeState :=
  merged.foldl
    (fun st t =>
      stepBlock (stepBlock (stepBlock st Condition.NONE t.noneB)
        Condition.FLAT_LLM t.flatB) Condition.INTENT_LAYER t.ilB)
    ⟨⟨0, 0, 0⟩, ⟨0, 0, 0⟩, ⟨0, 0, 0⟩, 0, false⟩

/-- The summary dictionary produced by `_recompute_summary`. -/
structure RSummary where
  total_tasks : ℕ
  infrastructure_errors : ℤ
  none_success_rate : ℚ
  flat_llm_success_rate : ℚ
  intent_layer_success_rate : ℚ
  none_itt_rate : ℚ
  flat_llm_itt_rate : ℚ
  intent_layer_itt_rate : ℚ
  resumed_from : Option String
  none_ci_90 : Option (ℚ × ℚ)
  flat_llm_ci_90 : Option (ℚ × ℚ)
  intent_layer_ci_90 : Option (ℚ × ℚ)
  flat_llm_vs_none_significant : Option Bool
  intent_layer_vs_none_significant : Option Bool
deriving DecidableEq

/-- Per-condition Wilson CI of `_recompute_summary` (only with multi-run data
and a positive valid total). -/
def rsCI (F : RealFuns) (s : CondStats) (hm : Bool) : Option (ℚ × ℚ) :=
  if hm ∧ 0 < s.total then
    match wilson_score_interval F s.successes s.total (9/10) with
    | Option.some (lo, hi, _) => Option.some (pyRound lo 3, pyRound hi 3)
    | Option.none => Option.none
  else Option.none

/-- Per-protocol rate of `_recompute_summary`. -/
def rsRate (s : CondStats) : ℚ :=
  if s.total = 0 then 0 else pyRound ((s.successes : ℚ) / (s.total : ℚ)) 2

/-- ITT rate of `_recompute_summary`. -/
def rsIttRate (s : CondStats) : ℚ :=
  if s.assigned = 0 then 0 else pyRound ((s.successes : ℚ) / (s.assigned : ℚ)) 2

/-- `_recompute_summary` from `lib/cli.py`: success/ITT rates, infra count,
then Wilson CIs and significance flags when multi-run data is present. -/
def recomputeSummary (F : RealFuns) (merged : List TaskRecord) : RSummary :=
  let st := recomputeState merged
  let nCI := rsCI F st.none_s st.hm
  let fCI := rsCI F st.flat_s st.hm
  let iCI := rsCI F st.il_s st.hm
  { total_tasks := merged.length,
    infrastructure_errors := st.infra,
    none_success_rate := rsRate st.none_s,
    flat_llm_success_rate := rsRate st.flat_s,
    intent_layer_success_rate := rsRate st.il_s,
    none_itt_rate := rsIttRate st.none_s,
    flat_llm_itt_rate := rsIttRate st.flat_s,
    intent_layer_itt_rate := rsIttRate st.il_s,
    resumed_from := Option.none,
    none_ci_90 := nCI,
    flat_llm_ci_90 := fCI,
    intent_layer_ci_90 := iCI,
    flat_llm_vs_none_significant := sigFlag nCI fCI,
    intent_layer_vs_none_significant := sigFlag nCI iCI }

/-- The new run's `EvalResults` as consumed by `_merge_results` (summary typed
as the recomputed shape). -/
structure EvalResults where
  eval_id : String
  timestamp : String
  results : List TaskRecord
  summary : RSummary
deriving DecidableEq

/-- `_merge_results` from `lib/cli.py`: merge the prior results into the new
run's compilation and recompute the summary from the merged records. -/
def mergeResults (F : RealFuns) (newR : EvalResults) (prior : List TaskRecord)
    (passed : List (String × Condition)) : EvalResults :=
  let merged := (taskOrder prior newR.results).filterMap (fun tid =>
    mergeTask tid (dictLast prior tid) (dictLast newR.results tid) passed)
  { newR with results := merged, summary := recomputeSummary F merged }

/-- The merged record for one task id in the merged result list. -/
def findTask (l : List TaskRecord) (tid : String) : Option TaskRecord :=
  l.find? (fun r => decide (r.task_id = tid))

theorem mem_condKeys (c : Condition) : c ∈ condKeys := by
  cases c <;> simp [condKeys]

theorem mem_passedPairs {prior : List TaskRecord} {tid : String} {c : Condition} :
    (tid, c) ∈ passedPairs prior ↔
    ∃ t ∈ prior, t.task_id = tid ∧ ∃ b, t.get c = Option.some b ∧
      b.success = true ∧ b.error = Option.none := by
  simp only [passedPairs, List.mem_flatMap, List.mem_filterMap]
  constructor
  · rintro ⟨t, ht, c', -, hc'⟩
    split at hc'
    · cases hc'
    · rename_i b hg
      split at hc'
      · rename_i hcond
        injection hc' with hpair
        injection hpair with h1 h2
        subst h2
        exact ⟨t, ht, h1, b, hg, hcond⟩
      · cases hc'
  · rintro ⟨t, ht, hid, b, hg, hs, he⟩
    refine ⟨t, ht, c, mem_condKeys c, ?_⟩
    rw [hg]
    simp [hs, he, hid]

theorem getLast?_mem {α : Type} {l : List α} {a : α}
    (h : l.getLast? = Option.some a) : a ∈ l := by
  obtain ⟨hne, h2⟩ := List.mem_getLast?_eq_getLast (Option.mem_def.mpr h)
  rw [h2]
  exact List.getLast_mem hne

theorem dictLast_id {l : List TaskRecord} {tid : String} {t : TaskRecord}
    (h : dictLast l tid = Option.some t) : t.task_id = tid := by
  have hmem := getLast?_mem h
  have := (List.mem_filter.mp hmem).2
  simpa using this

theorem dictLast_of_nodup {l : List TaskRecord}
    (hnd : (l.map (fun r => r.task_id)).Nodup) {t : TaskRecord} (ht : t ∈ l) :
    dictLast l t.task_id = Option.some t := by
  induction l with
  | nil => cases ht
  | cons h rest ih =>
    rw [List.map_cons, List.nodup_cons] at hnd
    rcases List.mem_cons.mp ht with rfl | hmem
    · have hrest : rest.filter (fun r => decide (r.task_id = t.task_id)) = [] := by
        refine List.filter_eq_nil_iff.mpr ?_
        intro r hr
        simp only [decide_eq_true_eq]
        intro habs
        exact hnd.1 (habs ▸ List.mem_map_of_mem (fun x => x.task_id) hr)
      rw [dictLast, List.filter_cons, if_pos (by simp), hrest]
      rfl
    · have hne : h.task_id ≠ t.task_id := by
        intro habs
        exact hnd.1 (habs ▸ List.mem_map_of_mem (fun x => x.task_id) hmem)
      rw [dictLast, List.filter_cons, if_neg (by simpa using hne)]
      exact ih hnd.2 hmem

theorem mergeTask_id {tid : String} {pT nT : Option TaskRecord}
    {passed : List (String × Condition)} {r : TaskRecord}
    (hn : ∀ t, nT = Option.some t → t.task_id = tid)
    (h : mergeTask tid pT nT passed = Option.some r) : r.task_id = tid := by
  rcases pT with _ | pt
  · exact hn r h
  · rw [mergeTask] at h
    split at h
    · cases h
    · cases h
      rfl

theorem findTask_filterMap {order : List String} {f : String → Option TaskRecord}
    (hf : ∀ tid r, f tid = Option.some r → r.task_id = tid)
    {T : String} {r : TaskRecord} (hT : T ∈ order) (hr : f T = Option.some r) :
    findTask (order.filterMap f) T = Option.some r := by
  induction order with
  | nil => cases hT
  | cons o rest ih =>
    by_cases ho : o = T
    · subst ho
      rw [List.filterMap_cons, hr, findTask,
        List.find?_cons_of_pos _ (by simp [hf o r hr])]
    · have hmem : T ∈ rest := by
        rcases List.mem_cons.mp hT with rfl | hmem
        · exact absurd rfl ho
        · exact hmem
      rw [List.filterMap_cons]
      rcases hfo : f o with _ | r'

      · exact ih hmem
      · rw [findTask, List.find?_cons_of_neg _ (by simp [hf o r' hfo, ho])]
        exact ih hmem

/-! Artifact-cache layer: embedding of `lib/index_cache.py`.  Paths are lists
of components; the filesystem is a finite map from absolute paths to file
contents; the manifest is an association list in insertion order, as a Python
dict. -/

/-- A file system: finite map from absolute paths to contents. -/
structure FS where
  files : List (List String × String)
deriving DecidableEq

/-- Content of the file at a path, if present. -/
def FS.get (fs : FS) (p : List String) : Option String :=
  (fs.files.find? (fun e => decide (e.1 = p))).map (fun e => e.2)

/-- Write (create or overwrite) the file at a path. -/
def FS.set (fs : FS) (p : List String) (c : String) : FS :=
  ⟨(p, c) :: fs.files.filter (fun e => !decide (e.1 = p))⟩

/-- `shutil.copy2` guarded by `if src.exists()`, as in `save`/`restore`. -/
def copyFile (fs : FS) (src dst : List String) : FS :=
  match fs.get src with
  | Option.none => fs
  | Option.some c => fs.set dst c

theorem FS.get_set_self (fs : FS) (p : List String) (c : String) :
    (fs.set p c).get p = Option.some c := by
  simp [FS.get, FS.set, List.find?_cons_of_pos]

theorem FS.get_set_ne (fs : FS) {p q : List String} (c : String) (h : q ≠ p) :
    (fs.set p c).get q = fs.get q := by
  rw [FS.get, FS.set]
  rw [List.find?_cons_of_neg _
    (by simp only [decide_eq_true_eq]; exact fun h2 => h h2.symm)]
  show (List.find? _ (fs.files.filter _)).map _ = (fs.files.find? _).map _
  congr 1
  induction fs.files with
  | nil => rfl
  | cons e es ih =>
    by_cases hep : e.1 = p
    · rw [List.filter_cons, if_neg (by simp [hep]),
        List.find?_cons_of_neg _
          (by simp only [decide_eq_true_eq]; exact fun h2 => h (h2.symm.trans hep)),
        ih]
    · rw [List.filter_cons, if_pos (by simp [hep])]
      by_cases heq : e.1 = q
      · rw [List.find?_cons_of_pos _ (by simp [heq]),
          List.find?_cons_of_pos _ (by simp [heq])]
      · rw [List.find?_cons_of_neg _ (by simp [heq]),
          List.find?_cons_of_neg _ (by simp [heq]), ih]

/-- A manifest entry (`CacheEntry` of `lib/index_cache.py`); relative file
paths as component lists. -/
structure CacheEntry where
  repo : String
  commit : String
  workspace_path : List String
  created_at : String
  agents_files : List (List String)
deriving DecidableEq

/-- Read a key from the manifest dict. -/
def dictGet (d : List (String × CacheEntry)) (k : String) : Option CacheEntry :=
  (d.find? (fun e => decide (e.1 = k))).map (fun e => e.2)

/-- Python dict assignment: replace in place, else append. -/
def dictSet : List (String × CacheEntry) → String → CacheEntry →
    List (String × CacheEntry)
  | [], k, v => [(k, v)]
  | e :: es, k, v => if e.1 = k then (k, v) :: es else e :: dictSet es k v

theorem dictGet_dictSet_self (d : List (String × CacheEntry)) (k : String)
    (v : CacheEntry) : dictGet (dictSet d k v) k = Option.some v := by
  induction d with
  | nil =>
    rw [dictSet, dictGet, List.find?_cons_of_pos _ (by simp)]
    rfl
  | cons e es ih =>
    rw [dictSet]
    by_cases he : e.1 = k
    · rw [if_pos he, dictGet, List.find?_cons_of_pos _ (by simp)]
      rfl
    · rw [if_neg he, dictGet, List.find?_cons_of_neg _ (by simp [he])]
      exact ih

theorem dictGet_dictSet_ne (d : List (String × CacheEntry)) {k k2 : String}
    (v : CacheEntry) (h : k2 ≠ k) : dictGet (dictSet d k v) k2 = dictGet d k2 := by
  induction d with
  | nil =>
    rw [dictSet, dictGet, List.find?_cons_of_neg _
      (by simp only [decide_eq_true_eq]; exact fun h2 => h h2.symm)]
    rfl
  | cons e es ih =>
    rw [dictSet]
    by_cases he : e.1 = k
    · rw [if_pos he, dictGet, List.find?_cons_of_neg _
        (by simp only [decide_eq_true_eq]; exact fun h2 => h h2.symm), dictGet,
        List.find?_cons_of_neg _
          (by simp only [decide_eq_true_eq]; exact fun h2 => h (he.symm.trans h2).symm)]
    · rw [if_neg he]
      by_cases he2 : e.1 = k2
      · rw [dictGet, List.find?_cons_of_pos _ (by simp [he2]), dictGet,
          List.find?_cons_of_pos _ (by simp [he2])]
      · rw [dictGet, List.find?_cons_of_neg _ (by simp [he2]), dictGet,
          List.find?_cons_of_neg _ (by simp [he2])]
        exact ih

/-- Python `str.split(sep)` for a one-character separator, over character
lists (structural, so concrete instances evaluate). -/
def chSplit (sep : Char) : List Char → List (List Char)
  | [] => [[]]
  | c :: cs =>
    let r := chSplit sep cs
    if c = sep then [] :: r
    else
      match r with
      | [] => [[c]]
      | g :: gs => (c :: g) :: gs

/-- Join character lists with a one-character separator. -/
def chIntercalate (sep : Char) : List (List Char) → List Char
  | [] => []
  | [g] => g
  | g :: gs => g ++ sep :: chIntercalate sep gs

/-- Drop everything up to and including the first `://`, when present. -/
def dropScheme : List Char → Option (List Char)
  | ':' :: '/' :: '/' :: rest => Option.some rest
  | _ :: rest => dropScheme rest
  | [] => Option.none

/-- Whether the name ends in `.git`. -/
def endsWithGit (l : List Char) : Bool :=
  match l.reverse with
  | 't' :: 'i' :: 'g' :: '.' :: _ => true
  | _ => false

/-- The path component of `urllib.parse.urlparse` for the URL shapes used by
the harness: drop the scheme and network location when a scheme separator is
present. -/
def urlPath (repo : String) : String :=
  match dropScheme repo.data with
  | Option.none => repo
  | Option.some rest =>
    match chSplit '/' rest with
    | [] => ""
    | _ :: segs => String.mk (chIntercalate '/' segs)

/-- `IndexCache._extract_repo_name`: last path segment of the URL path
(`strip("/")` then `split("/")[-1]`), with a `.git` suffix stripped. -/
def extractRepoName (repo : String) : String :=
  let segs := chSplit '/' (urlPath repo).data
  let segs2 := segs.filter (fun s => !s.isEmpty)
  let nm := (segs2.getLast?).getD []
  String.mk (if endsWithGit nm then nm.take (nm.length - 4) else nm)

/-- `IndexCache.get_cache_key`: `<repo-name>-<commit[:8]>-<condition>`, the
condition omitted when empty. -/
def get_cache_key (repo commit condition : String) : String :=
  let repo_name := extractRepoName repo
  let commit_short := commit.take 8
  if condition ≠ "" then repo_name ++ "-" ++ commit_short ++ "-" ++ condition
  else repo_name ++ "-" ++ commit_short

/-- `IndexCache.get_repo_cache_key`: `<repo-name>-<condition>`. -/
def get_repo_cache_key (repo condition : String) : String :=
  extractRepoName repo ++ "-" ++ condition

/-- In-memory state of an `IndexCache`: its directory, the manifest entries,
and the filesystem it reads and writes. -/
structure CacheState where
  cacheDir : List String
  entries : List (String × CacheEntry)
  fs : FS
deriving DecidableEq

/-- `IndexCache.lookup`. -/
def cacheLookup (st : CacheState) (repo commit condition : String) :
    Option CacheEntry :=
  dictGet st.entries (get_cache_key repo commit condition)

/-- `IndexCache.save`: copy each named generated file (that exists) from the
workspace into the entry directory, keeping its relative path, then insert the
manifest entry. -/
def cacheSave (st : CacheState) (repo commit : String) (workspace : List String)
    (agents_files : List (List String)) (condition : String) (repo_level : Bool)
    (now : String) : CacheState :=
  let cache_key :=
    if repo_level then get_repo_cache_key repo condition
    else get_cache_key repo commit condition
  let dir := st.cacheDir ++ [cache_key]
  let fs1 := agents_files.foldl (fun a f => copyFile a (workspace ++ f) (dir ++ f)) st.fs
  let newEntries := dictSet st.entries cache_key ⟨repo, commit, dir, now, agents_files⟩
  { st with fs := fs1, entries := newEntries }

/-- `IndexCache.restore`: copy each of the entry's files (that exists) from the
entry directory into the target workspace, keeping its relative path. -/
def cacheRestore (st : CacheState) (entry : CacheEntry) (target : List String) :
    CacheState :=
  let fs1 := entry.agents_files.foldl
    (fun a f => copyFile a (entry.workspace_path ++ f) (target ++ f)) st.fs
  { st with fs := fs1 }

/-- Code-point comparison of two character lists (Python string `<=`). -/
def strLeB : List Char → List Char → Bool
  | [], _ => true
  | _ :: _, [] => false
  | a :: as, b :: bs => if a < b then true else if b < a then false else strLeB as bs

/-- A relative path rendered as the character list of its string form. -/
def joinPath (p : List String) : List Char :=
  chIntercalate '/' (p.map (fun s => s.data))

/-- Python `sorted` on relative path strings (compared as joined strings). -/
def sortPaths (l : List (List String)) : List (List String) :=
  List.insertionSort (fun a b => strLeB (joinPath a) (joinPath b) = true) l

/-- An on-disk entry directory as seen by the orphan-repair scan: its name and
the relative paths of the `*.md` files found inside it. -/
structure DirOnDisk where
  name : String
  mdFiles : List (List String)
deriving DecidableEq

/-- `sorted(self.cache_dir.iterdir())`: directories in name order. -/
def sortDirs (l : List DirOnDisk) : List DirOnDisk :=
  List.insertionSort (fun a b => strLeB a.name.data b.name.data = true) l

/-- Python `name.rsplit("-", 2)`. -/
def rsplit2 (s : String) : List String :=
  let segs := chSplit '-' s.data
  if segs.length ≤ 3 then segs.map String.mk
  else [String.mk (chIntercalate '-' (segs.take (segs.length - 2))),
        String.mk (segs.getD (segs.length - 2) []),
        String.mk (segs.getD (segs.length - 1) [])]

/-- One step of the orphan-repair scan of `IndexCache._load_manifest`: a
directory already in the manifest, without `*.md` files, or with an unparsable
name is skipped; otherwise an entry is reconstructed from the directory name
and the sorted `*.md` file list. -/
def repairDir (cacheDir : List String) (now : String)
    (entries : List (String × CacheEntry)) (d : DirOnDisk) :
    List (String × CacheEntry) :=
  if (dictGet entries d.name).isSome then entries
  else
    let md := sortPaths d.mdFiles
    if md = [] then entries
    else
      match rsplit2 d.name with
      | [repo_name, commit_short, _] =>
        dictSet entries d.name
          ⟨"https://github.com/unknown/" ++ repo_name, commit_short,
           cacheDir ++ [d.name], now, md⟩
      | [repo_name, _] =>
        dictSet entries d.name
          ⟨"https://github.com/unknown/" ++ repo_name, "latest",
           cacheDir ++ [d.name], now, md⟩
      | _ => entries

/-- `IndexCache._load_manifest`: the manifest read from disk (or empty), then
repaired against the on-disk entry directories. -/
def loadManifest (cacheDir : List String)
    (manifest : Option (List (String × CacheEntry))) (dirs : List DirOnDisk)
    (now : String) : List (String × CacheEntry) :=
  (sortDirs dirs).foldl (repairDir cacheDir now) (manifest.getD [])

theorem foldCopy_spec {srcB dstB : List String} {content : List String → String} :
    ∀ (files : List (List String)) (fs : FS),
    (∀ f ∈ files, fs.get (srcB ++ f) = Option.some (content f)) →
    (∀ f ∈ files, ∀ g ∈ files, dstB ++ f ≠ srcB ++ g) →
    (∀ f ∈ files,
      (files.foldl (fun a f => copyFile a (srcB ++ f) (dstB ++ f)) fs).get (dstB ++ f) =
        Option.some (content f)) ∧
    (∀ p, (∀ f ∈ files, p ≠ dstB ++ f) →
      (files.foldl (fun a f => copyFile a (srcB ++ f) (dstB ++ f)) fs).get p =
        fs.get p) := by
  intro files
  induction files with
  | nil =>
    intro fs _ _
    exact ⟨fun f hf => absurd hf (List.not_mem_nil f), fun p _ => rfl⟩
  | cons f0 rest ih =>
    intro fs hsrc hdisj
    have hsrc0 : fs.get (srcB ++ f0) = Option.some (content f0) :=
      hsrc f0 (List.mem_cons_self f0 rest)
    have hstep : copyFile fs (srcB ++ f0) (dstB ++ f0) =
        fs.set (dstB ++ f0) (content f0) := by
      rw [copyFile, hsrc0]
    have hsrc1 : ∀ f ∈ rest,
        (fs.set (dstB ++ f0) (content f0)).get (srcB ++ f) =
          Option.some (content f) := by
      intro f hf
      rw [FS.get_set_ne _ _
        (Ne.symm (hdisj f0 (List.mem_cons_self f0 rest) f (List.mem_cons_of_mem f0 hf)))]
      exact hsrc f (List.mem_cons_of_mem f0 hf)
    have hdisj1 : ∀ f ∈ rest, ∀ g ∈ rest, dstB ++ f ≠ srcB ++ g := fun f hf g hg =>
      hdisj f (List.mem_cons_of_mem f0 hf) g (List.mem_cons_of_mem f0 hg)
    obtain ⟨ihA, ihB⟩ := ih (fs.set (dstB ++ f0) (content f0)) hsrc1 hdisj1
    constructor
    · intro f hf
      rcases List.mem_cons.mp hf with rfl | hf'
      · by_cases hin : f ∈ rest
        · rw [List.foldl_cons, hstep]
          exact ihA f hin
        · rw [List.foldl_cons, hstep,
            ihB (dstB ++ f) (fun g hg habs => hin ((List.append_cancel_left habs) ▸ hg))]
          exact FS.get_set_self _ _ _
      · rw [List.foldl_cons, hstep]
        exact ihA f hf'
    · intro p hp
      rw [List.foldl_cons, hstep, ihB p (fun f hf => hp f (List.mem_cons_of_mem f0 hf)),
        FS.get_set_ne _ _ (hp f0 (List.mem_cons_self f0 rest))]

theorem repairDir_preserves {cacheDir : List String} {now : String}
    {entries : List (String × CacheEntry)} {d : DirOnDisk} {k : String}
    (h : d.name ≠ k) :
    dictGet (repairDir cacheDir now entries d) k = dictGet entries k := by
  rw [repairDir]
  split
  · rfl
  · split <;>
    · by_cases hmd : sortPaths d.mdFiles = []
      · simp [hmd]
      · simp [hmd, dictGet_dictSet_ne _ _ (Ne.symm h)]

theorem foldRepair_preserves {cacheDir : List String} {now : String} :
    ∀ (ds : List DirOnDisk) (entries : List (String × CacheEntry)) (k : String),
    (∀ d ∈ ds, d.name ≠ k) →
    dictGet (ds.foldl (repairDir cacheDir now) entries) k = dictGet entries k := by
  intro ds
  induction ds with
  | nil => intro entries k _; rfl
  | cons d0 rest ih =>
    intro entries k hk
    rw [List.foldl_cons, ih _ k (fun d hd => hk d (List.mem_cons_of_mem d0 hd)),
      repairDir_preserves (hk d0 (List.mem_cons_self d0 rest))]

theorem foldRepair_repairs {cacheDir : List String} {now : String} :
    ∀ (ds : List DirOnDisk) (entries : List (String × CacheEntry))
      (d : DirOnDisk) (rn cs cond : String),
    d ∈ ds → (ds.map (fun x => x.name)).Nodup →
    dictGet entries d.name = Option.none →
    sortPaths d.mdFiles ≠ [] →
    rsplit2 d.name = [rn, cs, cond] →
    dictGet (ds.foldl (repairDir cacheDir now) entries) d.name =
      Option.some ⟨"https://github.com/unknown/" ++ rn, cs,
        cacheDir ++ [d.name], now, sortPaths d.mdFiles⟩ := by
  intro ds
  induction ds with
  | nil => intro _ _ _ _ _ hd; cases hd
  | cons d0 rest ih =>
    intro entries d rn cs cond hd hnd habsent hmd hsplit
    rw [List.map_cons, List.nodup_cons] at hnd
    rcases List.mem_cons.mp hd with rfl | hmem
    · have hrep : repairDir cacheDir now entries d =
          dictSet entries d.name
            ⟨"https://github.com/unknown/" ++ rn, cs,
             cacheDir ++ [d.name], now, sortPaths d.mdFiles⟩ := by
        rw [repairDir, if_neg (by rw [habsent]; simp), if_neg hmd, hsplit]
      rw [List.foldl_cons, hrep,
        foldRepair_preserves rest _ d.name
          (fun d2 hd2 habs => hnd.1 (habs ▸ List.mem_map_of_mem (fun x => x.name) hd2)),
        dictGet_dictSet_self]
    · have hne : d0.name ≠ d.name := fun habs =>
        hnd.1 (habs ▸ List.mem_map_of_mem (fun x => x.name) hmem)
      rw [List.foldl_cons]
      have habsent1 : dictGet (repairDir cacheDir now entries d0) d.name =
          Option.none := by
        rw [repairDir_preserves hne, habsent]
      exact ih _ d rn cs cond hmem hnd.2 habsent1 hmd hsplit

/-! Workspace stripping: embedding of `TaskRunner._strip_context_files`.
The workspace filesystem is the list of absolute file paths (component
lists); `Path.resolve()` is `..`/`.` normalisation over components. -/

/-- One step of path resolution (`..` pops, `.` and empty components vanish,
anything else descends). -/
def resolveComp (acc : List String) (c : String) : List String :=
  if c = ".." then acc.dropLast
  else if c = "." ∨ c = "" then acc
  else acc ++ [c]

/-- `(base / rel).resolve()` over components (symlink-free). -/
def resolvePath (base : List String) (rel : List String) : List String :=
  rel.foldl resolveComp base

/-- Whether a file path names a context file under the workspace root
(pathlib glob `**/AGENTS.md` / `**/CLAUDE.md`). -/
def isCtxFile (W p : List String) : Bool :=
  decide (W <+: p) &&
    (decide (p.getLast? = Option.some "AGENTS.md") ||
     decide (p.getLast? = Option.some "CLAUDE.md"))

/-- The `strip_extra` loop body of `_strip_context_files`: resolve the target,
silently skip it unless it canonicalises inside the workspace, then delete the
file or directory tree and record the raw relative path. -/
def stripExtraStep (W : List String) (st : List (List String) × List (List String))
    (extra : List String) : List (List String) × List (List String) :=
  let target := resolvePath W extra
  if ¬ (W <+: target) then st
  else if st.1.any (fun p => decide (p = target)) then
    (st.1.filter (fun p => !decide (p = target)), st.2 ++ [extra])
  else if st.1.any (fun p => decide (target <+: p) && !decide (p = target)) then
    (st.1.filter (fun p => !decide (target <+: p)), st.2 ++ [extra])
  else st

/-- The universal phase of `_strip_context_files`: delete every
`AGENTS.md`/`CLAUDE.md` under the workspace (recording workspace-relative
paths) and the `.github` tree when present. -/
def stripGlobPhase (files : List (List String)) (W : List String) :
    List (List String) × List (List String) :=
  let files1 := files.filter (fun p => !isCtxFile W p)
  let removed1 := (files.filter (fun p => isCtxFile W p)).map (fun p => p.drop W.length)
  let ghDir := W ++ [".github"]
  let hasGh := files1.any (fun p => decide (ghDir <+: p))
  (if hasGh then files1.filter (fun p => !decide (ghDir <+: p)) else files1,
   if hasGh then removed1 ++ [[".github"]] else removed1)

/-- `TaskRunner._strip_context_files`: remove all `AGENTS.md`/`CLAUDE.md`
files, the `.github` tree, and the per-repo extra paths that canonicalise
inside the workspace; return the remaining files and `sorted(set(removed))`
relative paths. -/
def stripContextFiles (files : List (List String)) (W : List String)
    (strip_extra : List (List String)) :
    List (List String) × List (List String) :=
  let st := strip_extra.foldl (stripExtraStep W) (stripGlobPhase files W)
  (st.1, sortPaths st.2.dedup)

theorem resolvePath_canonical {rel : List String}
    (h : ∀ c ∈ rel, ¬(c = ".." ∨ c = "." ∨ c = "")) :
    ∀ base : List String, resolvePath base rel = base ++ rel := by
  induction rel with
  | nil => intro base; simp [resolvePath]
  | cons c rest ih =>
    intro base
    have hc := h c (List.mem_cons_self c rest)
    push_neg at hc
    rw [resolvePath, List.foldl_cons]
    rw [show resolveComp base c = base ++ [c] from by
      rw [resolveComp, if_neg hc.1, if_neg (by push_neg; exact ⟨hc.2.1, hc.2.2⟩)]]
    have hrest := ih (fun x hx => h x (List.mem_cons_of_mem c hx)) (base ++ [c])
    rw [resolvePath] at hrest
    rw [hrest]
    simp

theorem stripExtra_fold_files {W : List String} :
    ∀ (extras : List (List String)) (st : List (List String) × List (List String))
      (p : List String),
    p ∈ st.1 → p ∉ (extras.foldl (stripExtraStep W) st).1 → W <+: p := by
  intro extras
  induction extras with
  | nil => intro st p hin hout; exact absurd hin hout
  | cons e rest ih =>
    intro st p hin hout
    rw [List.foldl_cons] at hout
    by_cases hkeep : p ∈ (stripExtraStep W st e).1
    · exact ih _ p hkeep hout
    · rw [stripExtraStep] at hkeep
      split at hkeep
      · exact absurd hin hkeep
      · rename_i htarget
        push_neg at htarget
        split at hkeep
        · rw [List.mem_filter] at hkeep
          push_neg at hkeep
          have hpt : p = resolvePath W e := by simpa using hkeep hin
          exact hpt ▸ htarget
        · split at hkeep
          · rw [List.mem_filter] at hkeep
            push_neg at hkeep
            have hpt : resolvePath W e <+: p := by simpa using hkeep hin
            exact htarget.trans hpt
          · exact absurd hin hkeep

theorem stripExtra_fold_removed {W : List String} :
    ∀ (extras : List (List String)) (st : List (List String) × List (List String))
      (e : List String),
    e ∈ (extras.foldl (stripExtraStep W) st).2 →
    e ∈ st.2 ∨ (e ∈ extras ∧ W <+: resolvePath W e) := by
  intro extras
  induction extras with
  | nil => intro st e he; exact Or.inl he
  | cons x rest ih =>
    intro st e he
    rw [List.foldl_cons] at he
    rcases ih _ e he with hin | ⟨hmem, hres⟩
    · rw [stripExtraStep] at hin
      split at hin
      · exact Or.inl hin
      · rename_i htarget
        push_neg at htarget
        split at hin
        · rcases List.mem_append.mp hin with h1 | h1
          · exact Or.inl h1
          · rcases List.mem_singleton.mp h1 with rfl
            exact Or.inr ⟨List.mem_cons_self e rest, htarget⟩
        · split at hin
          · rcases List.mem_append.mp hin with h1 | h1
            · exact Or.inl h1
            · rcases List.mem_singleton.mp h1 with rfl
              exact Or.inr ⟨List.mem_cons_self e rest, htarget⟩
          · exact Or.inl hin
    · exact Or.inr ⟨List.mem_cons_of_mem x hmem, hres⟩

theorem stripGlobPhase_files_out {files : List (List String)} {W : List String}
    {p : List String} (hp : p ∈ files) (hout : p ∉ (stripGlobPhase files W).1) :
    W <+: p := by
  by_cases h1 : isCtxFile W p = true
  · rw [isCtxFile, Bool.and_eq_true] at h1
    exact of_decide_eq_true h1.1
  · have hp1 : p ∈ files.filter (fun p => !isCtxFile W p) :=
      List.mem_filter.mpr ⟨hp, by simp [h1]⟩
    rw [stripGlobPhase] at hout
    by_cases hgh :
        (files.filter (fun p => !isCtxFile W p)).any
          (fun p => decide ((W ++ [".github"]) <+: p)) = true
    · rw [if_pos hgh] at hout
      by_cases h2 : decide ((W ++ [".github"]) <+: p) = true
      · exact (List.prefix_append W [".github"]).trans (of_decide_eq_true h2)
      · exact absurd (List.mem_filter.mpr ⟨hp1, by simp [h2]⟩) hout
    · rw [if_neg hgh] at hout
      exact absurd hp1 hout

theorem stripGlobPhase_removed {files : List (List String)} {W : List String}
    {e : List String} (he : e ∈ (stripGlobPhase files W).2) :
    (∃ p ∈ files, isCtxFile W p = true ∧ e = p.drop W.length) ∨
      e = [".github"] := by
  have he2 : e ∈ (if ((files.filter (fun p => !isCtxFile W p)).any
        (fun p => decide ((W ++ [".github"]) <+: p))) = true then
      (files.filter (fun p => isCtxFile W p)).map (fun p => p.drop W.length) ++
        [[".github"]]
    else (files.filter (fun p => isCtxFile W p)).map (fun p => p.drop W.length)) := he
  split at he2
  · rcases List.mem_append.mp he2 with h1 | h1
    · obtain ⟨p, hpm, rfl⟩ := List.mem_map.mp h1
      exact Or.inl ⟨p, (List.mem_filter.mp hpm).1, (List.mem_filter.mp hpm).2, rfl⟩
    · exact Or.inr (List.mem_singleton.mp h1)
  · obtain ⟨p, hpm, rfl⟩ := List.mem_map.mp he2
    exact Or.inl ⟨p, (List.mem_filter.mp hpm).1, (List.mem_filter.mp hpm).2, rfl⟩

end Harness

open Harness

/-- C1: `mcnemar_test(0, 0)` yields p-value `1.0` and discordant count `0`;
`mcnemar_test(0, 10)` yields a p-value strictly below `0.01` (it equals
`1/512`); and in general the p-value is the two-sided exact binomial
probability over the `b + c` discordant pairs, at most `1`, with the discordant
count reported as `b + c` (ties never enter) and zero discordant pairs giving
`p = 1` by convention. -/
theorem C1_mcnemar_test :
    (mcnemar_test 0 0).p_value = 1 ∧
    (mcnemar_test 0 0).n_discordant = 0 ∧
    (mcnemar_test 0 10).p_value < 1/100 ∧
    (mcnemar_test 0 10).p_value = 1/512 ∧
    ∀ b c : ℕ, (mcnemar_test b c).p_value ≤ 1 ∧
      (mcnemar_test b c).n_discordant = b + c ∧
      (b + c = 0 → (mcnemar_test b c).p_value = 1) := by
  refine ⟨by norm_num [mcnemar_test], rfl, ?_, ?_, ?_⟩
  · norm_num [mcnemar_test, Finset.sum_range_succ]
  · norm_num [mcnemar_test, Finset.sum_range_succ]
  · intro b c
    refine ⟨?_, rfl, ?_⟩
    · simp only [mcnemar_test]
      split
      · exact le_refl 1
      · exact min_le_left 1 _
    · intro h
      simp [mcnemar_test, h]

/-- Witness for C1: the zero-discordant convention and the p-value bound at
concrete inputs. -/
theorem C1_witness :
    (mcnemar_test 0 0).p_value = 1 ∧ (mcnemar_test 3 4).p_value ≤ 1 :=
  ⟨(C1_mcnemar_test.2.2.2.2 0 0).2.2 rfl, (C1_mcnemar_test.2.2.2.2 3 4).1⟩

/-- Concrete trial record used for the C2 example instances. -/
def sampleTrial (tid : String) (c : Condition) (ok : Bool) : TaskResult :=
  { task_id := tid, condition := c, success := ok, test_output := ""
    wall_clock_seconds := 1, input_tokens := 10, output_tokens := 5
    tool_calls := 2, lines_changed := 3, files_touched := [] }

/-- C2 (amended): for any permutation of the trial-result list,
`Reporter.compile_results` produces the same per-task deltas (for both
treatments, via `Reporter._compute_delta` over each task's groups) and the
same summary apart from its `mcnemar` entry — the same per-condition success
rates, ITT rates, median tokens, infrastructure-error and task counts, Wilson
CIs and significance flags.  The `mcnemar` entry (and the arrival-ordered
`runs` arrays inside multi-run per-task blocks) are not order-independent,
because `Reporter._compute_mcnemar` pairs runs by their position within each
(task, condition) group; see the counterexample. -/
theorem C2_aggregation_order_independent (F : RealFuns)
    {l₁ l₂ : List TaskResult} (h : l₁.Perm l₂) :
    computeSummaryCore F l₁ = computeSummaryCore F l₂ ∧
    ∀ tid : String,
      (computeDelta (condRuns l₁ tid Condition.NONE)
          (condRuns l₁ tid Condition.FLAT_LLM) =
        computeDelta (condRuns l₂ tid Condition.NONE)
          (condRuns l₂ tid Condition.FLAT_LLM)) ∧
      (computeDelta (condRuns l₁ tid Condition.NONE)
          (condRuns l₁ tid Condition.INTENT_LAYER) =
        computeDelta (condRuns l₂ tid Condition.NONE)
          (condRuns l₂ tid Condition.INTENT_LAYER)) := by
  constructor
  · have hn := h.filter (fun r => decide (r.condition = Condition.NONE))
    have hf := h.filter (fun r => decide (r.condition = Condition.FLAT_LLM))
    have hi := h.filter (fun r => decide (r.condition = Condition.INTENT_LAYER))
    simp only [computeSummaryCore, condResults]
    rw [hasMultiRun_perm h, successRate_perm hn, successRate_perm hf, successRate_perm hi,
      ittRate_perm hn, ittRate_perm hf, ittRate_perm hi,
      medianTokens_perm hn, medianTokens_perm hf, medianTokens_perm hi,
      condCI_perm F hn, condCI_perm F hf, condCI_perm F hi,
      h.countP_eq, length_firstOccurrences_perm (h.map (fun r => r.task_id))]
  · intro tid
    exact ⟨computeDelta_perm
        (h.filter (fun r : TaskResult =>
          decide (r.task_id = tid ∧ r.condition = Condition.NONE)))
        (h.filter (fun r : TaskResult =>
          decide (r.task_id = tid ∧ r.condition = Condition.FLAT_LLM))),
      computeDelta_perm
        (h.filter (fun r : TaskResult =>
          decide (r.task_id = tid ∧ r.condition = Condition.NONE)))
        (h.filter (fun r : TaskResult =>
          decide (r.task_id = tid ∧ r.condition = Condition.INTENT_LAYER)))⟩

/-- Witness for C2 at a concrete permutation of two trials: equal summary core
and an equal delta for a concrete task. -/
theorem C2_witness :
    (computeSummaryCore ⟨fun _ => 0, fun _ => 0⟩
      [sampleTrial "a" Condition.NONE true, sampleTrial "b" Condition.FLAT_LLM false] =
    computeSummaryCore ⟨fun _ => 0, fun _ => 0⟩
      [sampleTrial "b" Condition.FLAT_LLM false, sampleTrial "a" Condition.NONE true]) ∧
    computeDelta
        (condRuns [sampleTrial "a" Condition.NONE true,
          sampleTrial "b" Condition.FLAT_LLM false] "a" Condition.NONE)
        (condRuns [sampleTrial "a" Condition.NONE true,
          sampleTrial "b" Condition.FLAT_LLM false] "a" Condition.FLAT_LLM) =
      computeDelta
        (condRuns [sampleTrial "b" Condition.FLAT_LLM false,
          sampleTrial "a" Condition.NONE true] "a" Condition.NONE)
        (condRuns [sampleTrial "b" Condition.FLAT_LLM false,
          sampleTrial "a" Condition.NONE true] "a" Condition.FLAT_LLM) :=
  ⟨(C2_aggregation_order_independent ⟨fun _ => 0, fun _ => 0⟩
      (List.Perm.swap _ _ _)).1,
   ((C2_aggregation_order_independent ⟨fun _ => 0, fun _ => 0⟩
      (List.Perm.swap _ _ _)).2 "a").1⟩

/-- C2 counterexample: two arrival orders of the same four trial results (task
`t`, two `none` repetitions pass/fail, two `flat_llm` repetitions fail/pass)
are permutations of each other, yet `Reporter._compute_mcnemar` — part of the
compiled summary — differs: the first order pairs fail-with-fail and
pass-with-pass (0 discordant pairs), while the swapped order pairs
pass-with-fail both times (2 discordant pairs).  So `compile_results` is not
order-independent as claimed. -/
theorem C2_counterexample :
    (([sampleTrial "t" Condition.NONE false, sampleTrial "t" Condition.NONE true,
       sampleTrial "t" Condition.FLAT_LLM false, sampleTrial "t" Condition.FLAT_LLM true] :
      List TaskResult).Perm
      [sampleTrial "t" Condition.NONE true, sampleTrial "t" Condition.NONE false,
       sampleTrial "t" Condition.FLAT_LLM false, sampleTrial "t" Condition.FLAT_LLM true]) ∧
    computeMcnemar
      [sampleTrial "t" Condition.NONE false, sampleTrial "t" Condition.NONE true,
       sampleTrial "t" Condition.FLAT_LLM false, sampleTrial "t" Condition.FLAT_LLM true] ≠
    computeMcnemar
      [sampleTrial "t" Condition.NONE true, sampleTrial "t" Condition.NONE false,
       sampleTrial "t" Condition.FLAT_LLM false, sampleTrial "t" Condition.FLAT_LLM true] := by
  refine ⟨List.Perm.swap _ _ _, ?_⟩
  have h1 : discordant
      [sampleTrial "t" Condition.NONE false, sampleTrial "t" Condition.NONE true,
       sampleTrial "t" Condition.FLAT_LLM false, sampleTrial "t" Condition.FLAT_LLM true]
      Condition.FLAT_LLM Condition.NONE = (0, 0) := by decide
  have h2 : discordant
      [sampleTrial "t" Condition.NONE true, sampleTrial "t" Condition.NONE false,
       sampleTrial "t" Condition.FLAT_LLM false, sampleTrial "t" Condition.FLAT_LLM true]
      Condition.FLAT_LLM Condition.NONE = (1, 1) := by decide
  intro heq
  have hhead := congrArg List.head? heq
  simp only [computeMcnemar, List.head?, Option.some.injEq, Prod.mk.injEq] at hhead
  have hfor := hhead.2
  rw [mcnemarFor, mcnemarFor, h1, h2] at hfor
  have hnd := congrArg McNemarResult.n_discordant hfor
  simp [mcnemar_test] at hnd

/-- C5: `_strip_context_files` never deletes a path whose canonicalized form
lies outside the workspace root: every deleted file lies under the workspace,
and a `strip_extra` entry resolving outside the workspace (such as
`../outside.txt`) is silently skipped and absent from the returned removed
list.  The hypothesis says the filesystem's own paths are canonical (no
`..`/`.`/empty components), as real absolute paths are. -/
theorem C5_strip_outside_safety (files : List (List String)) (W : List String)
    (strip_extra : List (List String))
    (hcanon : ∀ p ∈ files, ∀ c ∈ p, ¬(c = ".." ∨ c = "." ∨ c = "")) :
    (∀ p ∈ files, p ∉ (stripContextFiles files W strip_extra).1 → W <+: p) ∧
    (∀ extra ∈ strip_extra, ¬ (W <+: resolvePath W extra) →
      extra ∉ (stripContextFiles files W strip_extra).2) := by
  constructor
  · intro p hp hout
    have hout1 : p ∉ (strip_extra.foldl (stripExtraStep W) (stripGlobPhase files W)).1 :=
      hout
    by_cases hin2 : p ∈ (stripGlobPhase files W).1
    · exact stripExtra_fold_files strip_extra _ p hin2 hout1
    · exact stripGlobPhase_files_out hp hin2
  · intro extra hex hres hmem
    have hmem1 : extra ∈
        (strip_extra.foldl (stripExtraStep W) (stripGlobPhase files W)).2 := by
      have h1 : extra ∈
          sortPaths (strip_extra.foldl (stripExtraStep W) (stripGlobPhase files W)).2.dedup :=
        hmem
      exact List.mem_dedup.mp
        (((List.perm_insertionSort
          (fun a b => strLeB (joinPath a) (joinPath b) = true) _).mem_iff).mp h1)
    rcases stripExtra_fold_removed strip_extra _ extra hmem1 with hin | ⟨-, hres2⟩
    · rcases stripGlobPhase_removed hin with ⟨p, hpf, hctx, rfl⟩ | rfl
      · have hdropcanon : ∀ c ∈ p.drop W.length, ¬(c = ".." ∨ c = "." ∨ c = "") :=
          fun c hc => hcanon p hpf c (List.drop_subset W.length p hc)
        exact hres (resolvePath_canonical hdropcanon W ▸ List.prefix_append W _)
      · have hgit : resolvePath W [".github"] = W ++ [".github"] :=
          resolvePath_canonical (by intro c hc; rw [List.mem_singleton.mp hc]; decide) W
        exact hres (hgit ▸ List.prefix_append W _)
    · exact hres hres2

/-- Witness for C5: a `strip_extra` entry `../outside.txt` resolving outside a
two-component workspace is not in the removed list. -/
theorem C5_witness :
    ["..", "outside.txt"] ∉
      (stripContextFiles [["root", "ws", "AGENTS.md"], ["root", "outside.txt"]]
        ["root", "ws"] [["..", "outside.txt"]]).2 :=
  (C5_strip_outside_safety
      [["root", "ws", "AGENTS.md"], ["root", "outside.txt"]] ["root", "ws"]
      [["..", "outside.txt"]] (by decide)).2
    ["..", "outside.txt"] (by decide) (by decide)

/-- C6: a trial whose agent invocation returned zero input tokens, zero output
tokens, zero tool calls and did not time out yields a failed result whose error
tag starts with `[empty-run]`; the reporter classifies it as an apparatus
failure and excludes it from the per-protocol success-rate denominator and from
median computation.  A timed-out trial instead yields a failed result tagged
`[timeout]`, which is not an apparatus failure and remains among the valid runs
counted in the success denominator, so the two outcomes are reported
distinctly. -/
theorem C6_empty_run_vs_timeout (env : RunEnv) (tid : String) (cond : Condition)
    (hclone : env.cloneCheckout = Except.ok ())
    (hpre : ∃ out, env.preValidate = Except.ok out)
    (hctx : contextOk env cond)
    (hbase : env.baseline = Except.ok ()) :
    ((env.claude.tool_calls = 0 ∧ env.claude.input_tokens = 0 ∧
      env.claude.output_tokens = 0 ∧ env.claude.timed_out = false) →
      (runTrial env tid cond).success = false ∧
      (runTrial env tid cond).error =
        Option.some "[empty-run] Claude produced no output" ∧
      strStarts "[empty-run] Claude produced no output" "[empty-run]" = true ∧
      isInfraError (runTrial env tid cond) = true ∧
      ∀ l : List TaskResult,
        successRate (l ++ [runTrial env tid cond]) = successRate l ∧
        medianTokens (l ++ [runTrial env tid cond]) = medianTokens l) ∧
    (env.claude.timed_out = true →
      (runTrial env tid cond).success = false ∧
      (runTrial env tid cond).error = Option.some "[timeout] Claude timed out" ∧
      (runTrial env tid cond).is_timeout = true ∧
      isInfraError (runTrial env tid cond) = false ∧
      ∀ l : List TaskResult,
        validRuns (l ++ [runTrial env tid cond]) =
          validRuns l ++ [runTrial env tid cond]) := by
  obtain ⟨out, hpreq⟩ := hpre
  obtain ⟨sm, hsm⟩ := contextStep_ok hctx
  constructor
  · rintro ⟨h1, h2, h3, h4⟩
    have hb : runTrial env tid cond =
        { task_id := tid, condition := cond, success := false,
          test_output := "", wall_clock_seconds := env.claude.wall_clock_seconds,
          input_tokens := 0, output_tokens := 0, tool_calls := 0,
          lines_changed := 0, files_touched := [],
          error := Option.some "[empty-run] Claude produced no output",
          exit_code := env.claude.exit_code } := by
      simp [runTrial, runTrialBody, hclone, hpreq, hsm, hbase, h1, h2, h3, h4]
    have herr : (runTrial env tid cond).error =
        Option.some "[empty-run] Claude produced no output" := by rw [hb]
    have hinfra : isInfraError (runTrial env tid cond) = true := by
      unfold isInfraError
      rw [herr]
      decide
    refine ⟨by rw [hb], by rw [hb], by decide, hinfra, ?_⟩
    intro l
    have hval : validRuns (l ++ [runTrial env tid cond]) = validRuns l := by
      simp only [validRuns, List.filter_append]
      have hone : List.filter (fun r => !isInfraError r) [runTrial env tid cond] =
          [] := by
        simp [List.filter, hinfra]
      rw [hone, List.append_nil]
    exact ⟨by simp only [successRate]; rw [hval],
           by simp only [medianTokens]; rw [hval]⟩
  · intro ht
    have hnotempty : ¬ (env.claude.tool_calls = 0 ∧ env.claude.input_tokens = 0 ∧
        env.claude.output_tokens = 0 ∧ env.claude.timed_out = false) := by
      rintro ⟨-, -, -, h4⟩
      rw [ht] at h4
      exact Bool.noConfusion h4
    have hb : runTrial env tid cond =
        { task_id := tid, condition := cond, success := false,
          test_output := "", wall_clock_seconds := env.claude.wall_clock_seconds,
          input_tokens := env.claude.input_tokens,
          output_tokens := env.claude.output_tokens,
          tool_calls := env.claude.tool_calls, lines_changed := 0,
          files_touched := [],
          error := Option.some "[timeout] Claude timed out",
          exit_code := env.claude.exit_code, is_timeout := true } := by
      simp [runTrial, runTrialBody, hclone, hpreq, hsm, hbase, ht, hnotempty]
    have herr : (runTrial env tid cond).error =
        Option.some "[timeout] Claude timed out" := by rw [hb]
    have hinfra : isInfraError (runTrial env tid cond) = false := by
      unfold isInfraError
      rw [herr]
      decide
    refine ⟨by rw [hb], by rw [hb], by rw [hb], hinfra, ?_⟩
    intro l
    simp only [validRuns, List.filter_append]
    have hone : List.filter (fun r => !isInfraError r) [runTrial env tid cond] =
        [runTrial env tid cond] := by
      simp [List.filter, hinfra]
    rw [hone]

/-- Concrete collaborator behaviour used in the C6 witness: the agent returned
with zero tokens and tool calls and no timeout. -/
def sampleEnv : RunEnv :=
  { cloneCheckout := Except.ok (), preValidate := Except.ok (Option.some "out"),
    skillGen := Except.ok ⟨1, 2, 3, true, []⟩,
    flatGen := Except.ok ⟨1, 2, 3, true, []⟩,
    baseline := Except.ok (),
    claude := ⟨5, 0, 0, 0, false, Option.some 0, "", ""⟩,
    test := Except.ok ⟨1, "", "", false⟩, diff := Except.ok ⟨0, []⟩,
    agentsFilesRead := [] }

/-- Witness for C6 at a concrete environment. -/
theorem C6_witness :
    (runTrial sampleEnv "t" Condition.NONE).error =
      Option.some "[empty-run] Claude produced no output" ∧
    isInfraError (runTrial sampleEnv "t" Condition.NONE) = true :=
  ⟨(((C6_empty_run_vs_timeout sampleEnv "t" Condition.NONE rfl
      ⟨Option.some "out", rfl⟩ trivial rfl).1 ⟨rfl, rfl, rfl, rfl⟩)).2.1,
   (((C6_empty_run_vs_timeout sampleEnv "t" Condition.NONE rfl
      ⟨Option.some "out", rfl⟩ trivial rfl).1 ⟨rfl, rfl, rfl, rfl⟩)).2.2.2.1⟩

/-- C3: merging a prior run in which task `T` passed condition `none` (success,
no error key) and failed condition `flat_llm`, with a new run that re-executed
only `flat_llm` for `T`, yields a merged record whose `none` block is exactly
the prior block, whose `flat_llm` block is the new run's block, whose
`intent_layer` block is carried from the prior record, and whose `deltas` entry
is the mixed-resume note (the code's marker string for "mixed — not
recomputed"); and the merged summary is recomputed from the merged records by
`_recompute_summary`, never carried forward from either input. -/
theorem C3_merge_semantics (F : RealFuns) (newR : EvalResults)
    (prior : List TaskRecord) (T : String) (pt nt : TaskRecord)
    (bn bf bf2 : CondBlock)
    (hnd : (prior.map (fun r => r.task_id)).Nodup)
    (hpt : pt ∈ prior) (hid : pt.task_id = T)
    (hbn : pt.noneB = Option.some bn) (hbns : bn.success = true)
    (hbne : bn.error = Option.none)
    (hbf : pt.flatB = Option.some bf) (hbfs : bf.success = false)
    (hnew : dictLast newR.results T = Option.some nt)
    (hnt_none : nt.noneB = Option.none) (hnt_flat : nt.flatB = Option.some bf2)
    (hnt_il : nt.ilB = Option.none) :
    findTask (mergeResults F newR prior (passedPairs prior)).results T =
      Option.some
        { task_id := T, noneB := Option.some bn, flatB := Option.some bf2,
          ilB := pt.ilB,
          deltas := Option.some
            (DeltasVal.note "mixed resume — deltas not recomputed") } ∧
    (mergeResults F newR prior (passedPairs prior)).summary =
      recomputeSummary F (mergeResults F newR prior (passedPairs prior)).results := by
  have hpassN : (T, Condition.NONE) ∈ passedPairs prior :=
    mem_passedPairs.mpr ⟨pt, hpt, hid, bn, hbn, hbns, hbne⟩
  have hpassF : (T, Condition.FLAT_LLM) ∉ passedPairs prior := by
    intro hmem
    obtain ⟨t, ht, htid, b, hgb, hbs2, hbe2⟩ := mem_passedPairs.mp hmem
    have hteq : t = pt :=
      List.inj_on_of_nodup_map hnd ht hpt (htid.trans hid.symm)
    subst hteq
    simp only [TaskRecord.get] at hgb
    rw [hbf] at hgb
    injection hgb with hb
    rw [← hb] at hbs2
    rw [hbfs] at hbs2
    cases hbs2
  have hP1 : (passedPairs prior).any
      (fun p => decide (p.1 = T ∧ p.2 = Condition.NONE)) = true := by
    rw [List.any_eq_true]
    exact ⟨(T, Condition.NONE), hpassN, by simp⟩
  have hP2 : (passedPairs prior).any
      (fun p => decide (p.1 = T ∧ p.2 = Condition.FLAT_LLM)) = false := by
    rw [List.any_eq_false]
    rintro ⟨a, b⟩ hmem habs
    simp only [decide_eq_true_eq] at habs
    obtain ⟨rfl, rfl⟩ := habs
    exact hpassF hmem
  have hdl : dictLast prior T = Option.some pt := hid ▸ dictLast_of_nodup hnd hpt
  have hbuild : buildMerged T pt (Option.some nt) (passedPairs prior) =
      { task_id := T, noneB := Option.some bn, flatB := Option.some bf2,
        ilB := pt.ilB,
        deltas := Option.some
          (DeltasVal.note "mixed resume — deltas not recomputed") } := by
    simp only [buildMerged, condKeys, List.any_cons, List.any_nil, TaskRecord.get]
    rw [hP1, hP2]
    simp [hbn, hnt_flat, hnt_il]
  have hfT : mergeTask T (dictLast prior T) (dictLast newR.results T)
      (passedPairs prior) =
      Option.some
        { task_id := T, noneB := Option.some bn, flatB := Option.some bf2,
          ilB := pt.ilB,
          deltas := Option.some
            (DeltasVal.note "mixed resume — deltas not recomputed") } := by
    rw [hdl, hnew, mergeTask, if_neg (by simp), hbuild]
  refine ⟨?_, rfl⟩
  apply findTask_filterMap
  · intro tid r hr
    exact mergeTask_id (fun t ht => dictLast_id ht) hr
  · show T ∈ taskOrder prior newR.results
    simp only [taskOrder]
    exact List.mem_append_left _ (hid ▸ List.mem_map_of_mem (fun r => r.task_id) hpt)
  · exact hfT

/-- Prior record for the C3 witness: `none` passed, `flat_llm` failed. -/
def priorTask0 : TaskRecord :=
  { task_id := "T", noneB := Option.some { success := true },
    flatB := Option.some { success := false },
    deltas := Option.some (DeltasVal.table []) }

/-- New-run record for the C3 witness: only `flat_llm` re-executed. -/
def newTask0 : TaskRecord :=
  { task_id := "T", flatB := Option.some { success := true },
    deltas := Option.some (DeltasVal.table []) }

/-- New-run result set for the C3 witness. -/
def newRun0 : EvalResults :=
  { eval_id := "run2", timestamp := "ts", results := [newTask0],
    summary := ⟨1, 0, 0, 0, 0, 0, 0, 0, Option.none, Option.none, Option.none,
      Option.none, Option.none, Option.none⟩ }

/-- Witness for C3 at a concrete prior/new pair. -/
theorem C3_witness :
    findTask (mergeResults ⟨fun _ => 0, fun _ => 0⟩ newRun0 [priorTask0]
        (passedPairs [priorTask0])).results "T" =
      Option.some
        { task_id := "T", noneB := Option.some { success := true },
          flatB := Option.some { success := true }, ilB := priorTask0.ilB,
          deltas := Option.some
            (DeltasVal.note "mixed resume — deltas not recomputed") } ∧
    (mergeResults ⟨fun _ => 0, fun _ => 0⟩ newRun0 [priorTask0]
        (passedPairs [priorTask0])).summary =
      recomputeSummary ⟨fun _ => 0, fun _ => 0⟩
        (mergeResults ⟨fun _ => 0, fun _ => 0⟩ newRun0 [priorTask0]
          (passedPairs [priorTask0])).results :=
  C3_merge_semantics ⟨fun _ => 0, fun _ => 0⟩ newRun0 [priorTask0] "T" priorTask0
    newTask0 { success := true } { success := false } { success := true }
    (by simp) (List.mem_singleton.mpr rfl) rfl rfl rfl rfl rfl rfl
    (by decide) rfl rfl rfl

/-- C4: after a simulated crash — an entry directory on disk holding generated
`*.md` files, its key absent from the manifest — loading the cache
reconstructs a manifest entry from the directory name and the scanned file
list, and a lookup with any repository, commit and condition whose cache key
equals the directory name returns the reconstructed entry. -/
theorem C4_orphan_repair (cacheDir : List String)
    (manifest0 : Option (List (String × CacheEntry))) (dirs : List DirOnDisk)
    (now repo commit condition rn cs cond : String) (d : DirOnDisk) (fs : FS)
    (hd : d ∈ dirs) (hnames : (dirs.map (fun x => x.name)).Nodup)
    (hkey : get_cache_key repo commit condition = d.name)
    (habsent : dictGet (manifest0.getD []) d.name = Option.none)
    (hmd : sortPaths d.mdFiles ≠ [])
    (hsplit : rsplit2 d.name = [rn, cs, cond]) :
    cacheLookup ⟨cacheDir, loadManifest cacheDir manifest0 dirs now, fs⟩
        repo commit condition =
      Option.some ⟨"https://github.com/unknown/" ++ rn, cs, cacheDir ++ [d.name],
        now, sortPaths d.mdFiles⟩ := by
  show dictGet (loadManifest cacheDir manifest0 dirs now)
      (get_cache_key repo commit condition) = _
  rw [hkey, loadManifest]
  apply foldRepair_repairs (sortDirs dirs) _ d rn cs cond
  · exact ((List.perm_insertionSort
      (fun a b : DirOnDisk => strLeB a.name.data b.name.data = true) dirs).mem_iff).mpr hd
  · exact (((List.perm_insertionSort
      (fun a b : DirOnDisk => strLeB a.name.data b.name.data = true) dirs).map
        (fun x => x.name)).nodup_iff).mpr hnames
  · exact habsent
  · exact hmd
  · exact hsplit

/-- Witness for C4: one orphaned directory, empty manifest. -/
theorem C4_witness :
    cacheLookup
        ⟨["cache"],
         loadManifest ["cache"] Option.none [⟨"repo-abcdefgh-flat_llm", [["AGENTS.md"]]⟩] "now",
         ⟨[]⟩⟩
        "https://github.com/u/repo" "abcdefgh123" "flat_llm" =
      Option.some ⟨"https://github.com/unknown/" ++ "repo", "abcdefgh",
        ["cache"] ++ ["repo-abcdefgh-flat_llm"], "now",
        sortPaths [["AGENTS.md"]]⟩ :=
  C4_orphan_repair ["cache"] Option.none [⟨"repo-abcdefgh-flat_llm", [["AGENTS.md"]]⟩]
    "now" "https://github.com/u/repo" "abcdefgh123" "flat_llm"
    "repo" "abcdefgh" "flat_llm" ⟨"repo-abcdefgh-flat_llm", [["AGENTS.md"]]⟩ ⟨[]⟩
    (by decide) (by decide) (by decide) rfl (by decide) (by decide)

/-- C9: saving a list of files that all exist in the workspace and then
restoring the produced entry into any target workspace recreates every listed
file at its relative path with byte-identical content; both `save` and
`restore` copy only the listed files (every other path is untouched).  The
workspace-disjointness hypotheses say the entry directory does not overlap the
source or target workspace, which holds for the cache layout (distinct
directory trees). -/
theorem C9_save_restore_roundtrip (st : CacheState) (repo commit : String)
    (ws target dir : List String) (files : List (List String))
    (condition : String) (repo_level : Bool) (now : String)
    (content : List String → String)
    (hdir : dir = st.cacheDir ++
      [if repo_level then get_repo_cache_key repo condition
       else get_cache_key repo commit condition])
    (hsrc : ∀ f ∈ files, st.fs.get (ws ++ f) = Option.some (content f))
    (hd1 : ∀ f ∈ files, ∀ g ∈ files, dir ++ f ≠ ws ++ g)
    (hd2 : ∀ f ∈ files, ∀ g ∈ files, target ++ f ≠ dir ++ g) :
    (cacheSave st repo commit ws files condition repo_level now).entries =
      dictSet st.entries
        (if repo_level then get_repo_cache_key repo condition
         else get_cache_key repo commit condition)
        ⟨repo, commit, dir, now, files⟩ ∧
    (∀ f ∈ files,
      (cacheSave st repo commit ws files condition repo_level now).fs.get (dir ++ f) =
        Option.some (content f)) ∧
    (∀ p, (∀ f ∈ files, p ≠ dir ++ f) →
      (cacheSave st repo commit ws files condition repo_level now).fs.get p =
        st.fs.get p) ∧
    (∀ f ∈ files,
      (cacheRestore (cacheSave st repo commit ws files condition repo_level now)
          ⟨repo, commit, dir, now, files⟩ target).fs.get (target ++ f) =
        Option.some (content f)) ∧
    (∀ p, (∀ f ∈ files, p ≠ target ++ f) →
      (cacheRestore (cacheSave st repo commit ws files condition repo_level now)
          ⟨repo, commit, dir, now, files⟩ target).fs.get p =
        (cacheSave st repo commit ws files condition repo_level now).fs.get p) := by
  subst hdir
  obtain ⟨hA, hB⟩ := foldCopy_spec files st.fs hsrc hd1
  have hsave_fs : (cacheSave st repo commit ws files condition repo_level now).fs =
      files.foldl
        (fun a f => copyFile a (ws ++ f)
          (st.cacheDir ++
            [if repo_level then get_repo_cache_key repo condition
             else get_cache_key repo commit condition] ++ f)) st.fs := rfl
  obtain ⟨hC, hD⟩ := foldCopy_spec files
    (cacheSave st repo commit ws files condition repo_level now).fs
    (fun f hf => by rw [hsave_fs]; exact hA f hf) hd2
  refine ⟨rfl, ?_, ?_, ?_, ?_⟩
  · intro f hf
    rw [hsave_fs]
    exact hA f hf
  · intro p hp
    rw [hsave_fs]
    exact hB p hp
  · intro f hf
    exact hC f hf
  · intro p hp
    exact hD p hp

/-- Witness for C9: one file, concrete workspace, cache and target; after
save-then-restore the file exists at the target with identical content. -/
theorem C9_witness :
    (cacheRestore
        (cacheSave ⟨["cache"], [], ⟨[(["ws", "AGENTS.md"], "content")]⟩⟩
          "https://github.com/u/r" "c" ["ws"] [["AGENTS.md"]] "flat_llm" false
          "now")
        ⟨"https://github.com/u/r", "c",
         ["cache"] ++
           [if false then get_repo_cache_key "https://github.com/u/r" "flat_llm"
            else get_cache_key "https://github.com/u/r" "c" "flat_llm"],
         "now", [["AGENTS.md"]]⟩ ["target"]).fs.get (["target"] ++ ["AGENTS.md"]) =
      Option.some "content" :=
  (C9_save_restore_roundtrip ⟨["cache"], [], ⟨[(["ws", "AGENTS.md"], "content")]⟩⟩
      "https://github.com/u/r" "c" ["ws"] ["target"]
      (["cache"] ++
        [if false then get_repo_cache_key "https://github.com/u/r" "flat_llm"
         else get_cache_key "https://github.com/u/r" "c" "flat_llm"])
      [["AGENTS.md"]] "flat_llm" false "now" (fun _ => "content")
      rfl (by decide) (by decide) (by decide)).2.2.2.1 ["AGENTS.md"] (by decide)

/-- C10: the cache key uses only the first 8 characters of the commit, so a
save under one commit is found by a lookup under any commit agreeing on the
first 8 characters — distinct commits sharing that prefix alias to the same
entry. -/
theorem C10_commit_prefix_aliasing (st : CacheState) (repo condition : String)
    (c1 c2 : String) (ws : List String) (files : List (List String)) (now : String)
    (hpfx : c1.take 8 = c2.take 8) :
    get_cache_key repo c1 condition = get_cache_key repo c2 condition ∧
    cacheLookup (cacheSave st repo c1 ws files condition false now) repo c2
        condition =
      Option.some ⟨repo, c1,
        st.cacheDir ++ [get_cache_key repo c1 condition], now, files⟩ := by
  have hkey : get_cache_key repo c1 condition = get_cache_key repo c2 condition := by
    simp [get_cache_key, hpfx]
  refine ⟨hkey, ?_⟩
  show dictGet
      (dictSet st.entries (get_cache_key repo c1 condition)
        ⟨repo, c1, st.cacheDir ++ [get_cache_key repo c1 condition], now, files⟩)
      (get_cache_key repo c2 condition) = _
  rw [← hkey, dictGet_dictSet_self]

/-- Witness for C10: two distinct commits with a shared 8-character prefix. -/
theorem C10_witness :
    get_cache_key "https://github.com/u/r" "abcdefgh111" "flat_llm" =
      get_cache_key "https://github.com/u/r" "abcdefgh222" "flat_llm" ∧
    cacheLookup
        (cacheSave ⟨["cache"], [], ⟨[]⟩⟩ "https://github.com/u/r" "abcdefgh111"
          ["ws"] [] "flat_llm" false "now")
        "https://github.com/u/r" "abcdefgh222" "flat_llm" =
      Option.some ⟨"https://github.com/u/r", "abcdefgh111",
        ["cache"] ++ [get_cache_key "https://github.com/u/r" "abcdefgh111" "flat_llm"],
        "now", []⟩ :=
  C10_commit_prefix_aliasing ⟨["cache"], [], ⟨[]⟩⟩ "https://github.com/u/r"
    "flat_llm" "abcdefgh111" "abcdefgh222" ["ws"] [] "now" (by decide)

/-- C7: for `0 ≤ successes ≤ n` the Wilson interval at the default 90%
confidence is `some (lower, upper, center)` with
`0 ≤ lower ≤ center ≤ upper ≤ 1`, and `n = 0` yields exactly `(0, 1, 0)`.
Holds for every `sqrt` oracle that is nonnegative on nonnegative inputs, which
`math.sqrt` is. -/
theorem C7_wilson_score_interval_bounds (F : RealFuns)
    (hsqrt : ∀ x : ℚ, 0 ≤ x → 0 ≤ F.sqrt x) (s n : ℕ) (hsn : s ≤ n) :
    ∃ l u c : ℚ, wilson_score_interval F s n (9/10) = some (l, u, c) ∧
      0 ≤ l ∧ l ≤ c ∧ c ≤ u ∧ u ≤ 1 ∧ (n = 0 → l = 0 ∧ u = 1 ∧ c = 0) := by
  by_cases hn : n = 0
  · subst hn
    exact ⟨0, 1, 0, by simp [wilson_score_interval], by norm_num⟩
  · obtain ⟨z, hz, hz0⟩ := inverseNormalCdf_at95 F
    have harg : (1 - (1 - (9/10 : ℚ)) / 2) = 19/20 := by norm_num
    have hN : (0:ℚ) < (n : ℚ) := by exact_mod_cast Nat.pos_of_ne_zero hn
    have hph0 : (0:ℚ) ≤ (s : ℚ) / (n : ℚ) := by positivity
    have hph1 : (s : ℚ) / (n : ℚ) ≤ 1 := by
      rw [div_le_one hN]
      exact_mod_cast hsn
    have hz2 : (0:ℚ) ≤ z * z := mul_self_nonneg z
    have hden : (0:ℚ) < 1 + z * z / n := by positivity
    set ph : ℚ := (s : ℚ) / (n : ℚ) with hph
    set center : ℚ := (ph + z * z / (2 * n)) / (1 + z * z / n) with hcenter
    set spread : ℚ :=
      z * F.sqrt (ph * (1 - ph) / n + z * z / (4 * n * n)) / (1 + z * z / n)
      with hspread
    have hc0 : 0 ≤ center := by
      apply div_nonneg _ hden.le
      positivity
    have hc1 : center ≤ 1 := by
      rw [hcenter, div_le_one hden]
      have hhalf : z * z / (2 * n) = (z * z / n) / 2 := by ring
      have : (0:ℚ) ≤ z * z / n := by positivity
      rw [hhalf]
      linarith
    have hs0 : 0 ≤ spread := by
      rw [hspread]
      apply div_nonneg _ hden.le
      apply mul_nonneg hz0
      apply hsqrt
      have h1 : (0:ℚ) ≤ ph * (1 - ph) / n := by
        apply div_nonneg _ hN.le
        exact mul_nonneg hph0 (by linarith)
      have h2 : (0:ℚ) ≤ z * z / (4 * n * n) := by positivity
      linarith
    have hlow : max 0 (center - spread) ≤ center := max_le hc0 (by linarith)
    have hup : center ≤ min 1 (center + spread) := le_min hc1 (by linarith)
    refine ⟨pyRound (max 0 (center - spread)) 4, pyRound (min 1 (center + spread)) 4,
      pyRound center 4, ?_, ?_, ?_, ?_, ?_, fun h => absurd h hn⟩
    · rw [wilson_score_interval, if_neg hn, harg, hz]
    · calc (0:ℚ) = pyRound 0 4 := (pyRound_zero 4).symm
        _ ≤ pyRound (max 0 (center - spread)) 4 := pyRound_mono 4 (le_max_left 0 _)
    · exact pyRound_mono 4 hlow
    · exact pyRound_mono 4 hup
    · calc pyRound (min 1 (center + spread)) 4 ≤ pyRound 1 4 :=
          pyRound_mono 4 (min_le_left 1 _)
        _ = 1 := pyRound_one 4

/-- Witness for C7 at a concrete oracle and input. -/
theorem C7_witness :
    ∃ l u c : ℚ,
      wilson_score_interval ⟨fun _ => 0, fun _ => 0⟩ 1 2 (9/10) = some (l, u, c) ∧
      0 ≤ l ∧ l ≤ c ∧ c ≤ u ∧ u ≤ 1 ∧ (2 = 0 → l = 0 ∧ u = 1 ∧ c = 0) :=
  C7_wilson_score_interval_bounds ⟨fun _ => 0, fun _ => 0⟩
    (fun _ _ => le_refl 0) 1 2 (by norm_num)

